import Mathlib

/-!
# Position Reconciliation Engine — verification of the specification

Shallow embedding of the position-reconciliation engine of
`src/trading_engine_new.py` and `src/binance_client.py`.

Modelling conventions:
* quantities, prices and balances are rationals (`ℚ`); Python's `round`
  (banker's rounding, ties to even) is `roundHalfEven`;
* a Python `dict` is a partial map `Ticker → Option ℚ` where key presence
  matters, and a total map `Ticker → ℚ` where the source only ever reads it
  through `.get(key, 0)` or builds it from the zero-filtered
  `get_stable_positions`;
* an API call that can raise an exception is modelled by an `Option`/`Except`
  valued field of an explicit environment record; the `try/except` blocks of
  the source become `match`es on those fields;
* `error_reasons[symbol] = reason` writes are modelled by an `Option Reason`
  per symbol where a later write overwrites an earlier one, exactly as in the
  source dictionary.
-/

attribute [local semireducible] Rat.mul Rat.add Rat.sub Rat.inv Rat.ofScientific

set_option linter.unusedVariables false

abbrev Ticker := String

/-- Floor of a rational as an integer (`Int.fdiv` floors the quotient). -/
def rfloor (q : ℚ) : ℤ := Int.fdiv q.num (q.den : ℤ)

/-- Python's `round(x)` : round half to even (banker's rounding). -/
def roundHalfEven (q : ℚ) : ℤ :=
  let f := rfloor q
  let r := q - (f : ℚ)
  if r < 1/2 then f
  else if 1/2 < r then f + 1
  else if f % 2 = 0 then f else f + 1

/-- Python's `round(x, p)` for a nonnegative number of decimal places. -/
def roundPrec (x : ℚ) (p : ℕ) : ℚ := (roundHalfEven (x * 10 ^ p) : ℚ) / 10 ^ p

theorem rfloor_intCast (k : ℤ) : rfloor (k : ℚ) = k := by
  simp [rfloor, Rat.num_intCast, Rat.den_intCast]

theorem roundHalfEven_intCast (k : ℤ) : roundHalfEven (k : ℚ) = k := by
  simp [roundHalfEven, rfloor_intCast]

/-- Quantization rules of one instrument (`LOT_SIZE` / `MIN_NOTIONAL`
filters and `quantityPrecision` of `futures_exchange_info`). -/
structure TradingRules where
  step_size : ℚ
  quantity_precision : ℕ
  min_qty : ℚ
  max_qty : ℚ
  min_notional : ℚ
  deriving DecidableEq, Repr

/-- The distinct `error_reasons` strings written by the engine. -/
inductive Reason
  | quantityTooSmall
  | quantityTooBig
  | notionalTooLow
  | adjustFailed
  | priceFail
  | notTradable
  | insufficientBalance
  | qtyZero
  | orderFailed
  | positionsFail
  | orderCanceled
  | smallAdjust
  | postonlyFailed
  | globalFailure
  | execException
  deriving DecidableEq, Repr

/-- The step/precision rounding of `TradingEngine.adjust_quantity`:
`round(round(quantity / step_size) * step_size, quantity_precision)`. -/
def rawStep (r : TradingRules) (quantity : ℚ) : ℚ :=
  roundPrec ((roundHalfEven (quantity / r.step_size) : ℚ) * r.step_size) r.quantity_precision

/-- `TradingEngine.adjust_quantity` (trading_engine_new.py lines 93-130).
Returns the adjusted quantity together with the last reason written to
`error_reasons[symbol]` by this call (later writes overwrite earlier ones,
as in the source dictionary).  `rules? = none` models the `except` path
(the exchange-info fetch raised), which returns `0.0` with a reason. -/
def adjustS1 (r : TradingRules) (quantity : ℚ) : ℚ × Option Reason :=
  let a0 := rawStep r quantity
  if a0 < r.min_qty then (0, some Reason.quantityTooSmall)
  else if r.max_qty < a0 then (r.max_qty, some Reason.quantityTooBig)
  else (a0, none)

def adjust_quantity (rules? : Option TradingRules) (quantity price : ℚ)
    (is_close : Bool) : ℚ × Option Reason :=
  match rules? with
  | none => (0, some Reason.adjustFailed)
  | some r =>
    let min_notional : ℚ := if is_close then 0 else r.min_notional
    let s1 := adjustS1 r quantity
    if is_close = false then
      if s1.1 * price < min_notional then (0, some Reason.notionalTooLow) else s1
    else s1

theorem adjust_quantity_true (r : TradingRules) (q price : ℚ) :
    adjust_quantity (some r) q price true = adjustS1 r q := rfl

theorem adjust_quantity_false (r : TradingRules) (q price : ℚ) :
    adjust_quantity (some r) q price false =
      if (adjustS1 r q).1 * price < r.min_notional then (0, some Reason.notionalTooLow)
      else adjustS1 r q := rfl

/-- Case analysis on the first stage of `adjust_quantity`. -/
theorem adjustS1_cases (r : TradingRules) (q : ℚ) :
    (rawStep r q < r.min_qty ∧ adjustS1 r q = (0, some Reason.quantityTooSmall)) ∨
    (¬ rawStep r q < r.min_qty ∧ r.max_qty < rawStep r q ∧
      adjustS1 r q = (r.max_qty, some Reason.quantityTooBig)) ∨
    (r.min_qty ≤ rawStep r q ∧ rawStep r q ≤ r.max_qty ∧
      adjustS1 r q = (rawStep r q, none)) := by
  unfold adjustS1
  by_cases h1 : rawStep r q < r.min_qty
  · exact Or.inl ⟨h1, by simp [h1]⟩
  · by_cases h2 : r.max_qty < rawStep r q
    · exact Or.inr (Or.inl ⟨h1, h2, by simp [h1, h2]⟩)
    · exact Or.inr (Or.inr ⟨not_lt.mp h1, not_lt.mp h2, by simp [h1, h2]⟩)

/-- When `step_size` is an integer multiple of `10^-quantity_precision`
(the exchange invariant relating `stepSize` and `quantityPrecision`),
the precision rounding inside `rawStep` is the identity and `rawStep`
returns an exact integer multiple of `step_size`. -/
theorem rawStep_eq_multiple (r : TradingRules) (m : ℤ)
    (hm : (r.step_size * 10 ^ r.quantity_precision : ℚ) = (m : ℚ)) (q : ℚ) :
    rawStep r q = (roundHalfEven (q / r.step_size) : ℚ) * r.step_size := by
  unfold rawStep roundPrec
  have h10 : ((10 : ℚ) ^ r.quantity_precision) ≠ 0 := by positivity
  have hc : ((roundHalfEven (q / r.step_size) : ℚ) * r.step_size) * 10 ^ r.quantity_precision
      = ((roundHalfEven (q / r.step_size) * m : ℤ) : ℚ) := by
    push_cast
    rw [mul_assoc, hm]
  rw [hc, roundHalfEven_intCast]
  push_cast
  rw [mul_div_assoc]
  congr 1
  field_simp
  linarith [hm]

/-- Every value `rawStep` produces under the alignment invariant is an
integer multiple of the step size. -/
theorem rawStep_multiple (r : TradingRules) (m : ℤ)
    (hm : (r.step_size * 10 ^ r.quantity_precision : ℚ) = (m : ℚ)) (q : ℚ) :
    ∃ k : ℤ, rawStep r q = (k : ℚ) * r.step_size :=
  ⟨roundHalfEven (q / r.step_size), rawStep_eq_multiple r m hm q⟩

/-- A quantity that is already an in-range step multiple (with sufficient
notional when opening) is a fixed point of `adjust_quantity`. -/
theorem adjust_quantity_fixed (r : TradingRules) (q price : ℚ) (ic : Bool)
    (m : ℤ) (hm : (r.step_size * 10 ^ r.quantity_precision : ℚ) = (m : ℚ))
    (hstep : r.step_size ≠ 0)
    (k : ℤ) (hk : q = (k : ℚ) * r.step_size)
    (hmin : r.min_qty ≤ q) (hmax : q ≤ r.max_qty)
    (hnot : ic = false → r.min_notional ≤ q * price) :
    (adjust_quantity (some r) q price ic).1 = q := by
  have hraw : rawStep r q = q := by
    rw [rawStep_eq_multiple r m hm q, hk]
    rw [mul_div_assoc, div_self hstep, mul_one, roundHalfEven_intCast]
  have h1 : ¬ q < r.min_qty := not_lt.mpr hmin
  have h2 : ¬ r.max_qty < q := not_lt.mpr hmax
  have hs1 : adjustS1 r q = (q, none) := by
    unfold adjustS1
    rw [hraw]
    simp [h1, h2]
  cases ic with
  | false =>
    have h3 : ¬ q * price < r.min_notional := not_lt.mpr (hnot rfl)
    rw [adjust_quantity_false, hs1]
    simp [h3]
  | true => rw [adjust_quantity_true, hs1]

/-- A nonzero result of `adjust_quantity` (open path) always carries enough
notional; this is the final check of the function. -/
theorem adjust_quantity_open_notional (r : TradingRules) (q price : ℚ)
    (h : (adjust_quantity (some r) q price false).1 ≠ 0) :
    r.min_notional ≤ (adjust_quantity (some r) q price false).1 * price := by
  rw [adjust_quantity_false] at *
  by_cases hn : (adjustS1 r q).1 * price < r.min_notional
  · simp [hn] at h
  · simpa [hn] using not_lt.mp hn

/-- Sample instrument rules: `stepSize 0.001`, `quantityPrecision 3`,
`minQty 0.001`, `maxQty 1000`, `minNotional 5` (Scenario C's numbers). -/
def rulesMilli : TradingRules :=
  { step_size := 1/1000, quantity_precision := 3, min_qty := 1/1000,
    max_qty := 1000, min_notional := 5 }

/-- The guaranteed shape of a quantized quantity (the body of claim C2):
zero, or an exact step multiple within `[min_qty, max_qty]` which, when
opening, has notional at least `min_notional`. -/
def AdjustQuantityOk (r : TradingRules) (quantity price : ℚ) (is_close : Bool) : Prop :=
  (adjust_quantity (some r) quantity price is_close).1 = 0 ∨
    ((∃ k : ℤ, (adjust_quantity (some r) quantity price is_close).1 = (k : ℚ) * r.step_size) ∧
      r.min_qty ≤ (adjust_quantity (some r) quantity price is_close).1 ∧
      (adjust_quantity (some r) quantity price is_close).1 ≤ r.max_qty ∧
      (is_close = false →
        r.min_notional ≤ (adjust_quantity (some r) quantity price is_close).1 * price))

/-- **C2** (amended): for every `(symbol, rawQty, price, isClose)`, the
quantity normalizer returns `0` or an exact multiple of `stepSize` within
`[minQty, maxQty]`, with `quantity*price ≥ minNotional` when opening; a
value above `maxQty` is clamped to `maxQty` (unless it is zeroed by the
notional check); the function never raises — the exception path returns
`(0, reason)`.  Amendment forced by the counterexample: the reason
"quantity too small" for a result below `minQty` survives only on the
close path (`isClose = true`); on the open path the subsequent notional
check overwrites it with "notional too low" whenever `minNotional > 0`. -/
theorem C2_adjust_quantity_amended (r : TradingRules) (quantity price : ℚ) (is_close : Bool)
    (m : ℤ) (hm : (r.step_size * 10 ^ r.quantity_precision : ℚ) = (m : ℚ))
    (kmax : ℤ) (hmax : r.max_qty = (kmax : ℚ) * r.step_size)
    (hminmax : r.min_qty ≤ r.max_qty) :
    adjust_quantity none quantity price is_close = (0, some Reason.adjustFailed) ∧
    AdjustQuantityOk r quantity price is_close ∧
    (r.max_qty < rawStep r quantity →
      (adjust_quantity (some r) quantity price is_close).1 = r.max_qty ∨
      (adjust_quantity (some r) quantity price is_close).1 = 0) ∧
    (rawStep r quantity < r.min_qty → is_close = true →
      adjust_quantity (some r) quantity price is_close = (0, some Reason.quantityTooSmall)) := by
  obtain ⟨k0, hk0⟩ := rawStep_multiple r m hm quantity
  have hvalid : (adjustS1 r quantity).1 = 0 ∨
      ((∃ k : ℤ, (adjustS1 r quantity).1 = (k : ℚ) * r.step_size) ∧
        r.min_qty ≤ (adjustS1 r quantity).1 ∧ (adjustS1 r quantity).1 ≤ r.max_qty) := by
    rcases adjustS1_cases r quantity with ⟨_, h⟩ | ⟨_, _, h⟩ | ⟨hlo, hhi, h⟩
    · rw [h]
      exact Or.inl rfl
    · rw [h]
      exact Or.inr ⟨⟨kmax, hmax⟩, hminmax, le_refl _⟩
    · rw [h]
      exact Or.inr ⟨⟨k0, hk0⟩, hlo, hhi⟩
  refine ⟨rfl, ?_, ?_, ?_⟩
  · unfold AdjustQuantityOk
    cases is_close with
    | true =>
      rw [adjust_quantity_true]
      rcases hvalid with h | ⟨hk, hlo, hhi⟩
      · exact Or.inl h
      · exact Or.inr ⟨hk, hlo, hhi, by simp⟩
    | false =>
      rw [adjust_quantity_false]
      by_cases hn : (adjustS1 r quantity).1 * price < r.min_notional
      · simp [hn]
      · simp only [hn, if_false]
        rcases hvalid with h | ⟨hk, hlo, hhi⟩
        · exact Or.inl h
        · exact Or.inr ⟨hk, hlo, hhi, fun _ => not_lt.mp hn⟩
  · intro hclamp
    have hs1 : adjustS1 r quantity = (r.max_qty, some Reason.quantityTooBig) := by
      rcases adjustS1_cases r quantity with ⟨h1, _⟩ | ⟨_, _, h⟩ | ⟨_, hhi, _⟩
      · exact absurd (lt_of_le_of_lt hminmax hclamp) (not_lt.mpr (le_of_lt h1))
      · exact h
      · exact absurd hclamp (not_lt.mpr hhi)
    cases is_close with
    | true =>
      rw [adjust_quantity_true, hs1]
      exact Or.inl rfl
    | false =>
      rw [adjust_quantity_false, hs1]
      by_cases hn : (r.max_qty : ℚ) * price < r.min_notional
      · simp [hn]
      · simp [hn]
  · intro hsmall hic
    have hs1 : adjustS1 r quantity = (0, some Reason.quantityTooSmall) := by
      unfold adjustS1
      simp [hsmall]
    subst hic
    rw [adjust_quantity_true, hs1]

/-- **C2 counterexample**: with Scenario C's rules (`stepSize 0.001`,
`minQty 0.001`, `minNotional 5`) and `rawQty 0.0004`, on the open path
(`isClose = false`) the rounded quantity is below `minQty`, yet the reason
finally recorded is "notional too low", not "quantity too small": the
zeroed quantity also fails the subsequent notional check, whose write to
`error_reasons[symbol]` overwrites the earlier one. -/
theorem C2_reason_overwrite_cex :
    rawStep rulesMilli (4/10000) < rulesMilli.min_qty ∧
    adjust_quantity (some rulesMilli) (4/10000) 1 false = (0, some Reason.notionalTooLow) ∧
    adjust_quantity (some rulesMilli) (4/10000) 1 false ≠ (0, some Reason.quantityTooSmall) := by
  refine ⟨by decide, by decide, by decide⟩

/-- **C2 witness**: the amended theorem applied to Scenario C's rules at
`rawQty 0.01`, `price 50000`, open side. -/
theorem C2_adjust_quantity_amended_witness :
    ((rulesMilli.step_size * 10 ^ rulesMilli.quantity_precision : ℚ) = ((1 : ℤ) : ℚ)) ∧
    (rulesMilli.max_qty = ((1000000 : ℤ) : ℚ) * rulesMilli.step_size) ∧
    rulesMilli.min_qty ≤ rulesMilli.max_qty ∧
    AdjustQuantityOk rulesMilli (1/100) 50000 false :=
  ⟨by decide, by decide, by decide,
    (C2_adjust_quantity_amended rulesMilli (1/100) 50000 false 1 (by decide) 1000000
      (by decide) (by decide)).2.1⟩

inductive Side
  | buy
  | sell
  deriving DecidableEq, Repr

/-- Environment of one `BinanceFuturesClient.get_symbol_price` call
(binance_client.py lines 106-141): whether `futures_exchange_info`
succeeded, the symbol's listed status (if listed), and the price field of
`futures_symbol_ticker` (`none` models a missing/invalid field or a raised
exception; the float conversion raising is also caught by the code's
`except`). -/
structure PriceEnv where
  exchangeInfoOk : Bool
  status : Option String
  tickerPrice : Option ℚ
  deriving DecidableEq, Repr

/-- `BinanceFuturesClient.get_symbol_price`: returns the sentinel `0.0` on
every failure path, including a symbol that is not in TRADING status. -/
def get_symbol_price (env : PriceEnv) : ℚ :=
  if env.exchangeInfoOk = false then 0
  else if env.status ≠ some "TRADING" then 0
  else
    match env.tickerPrice with
    | none => 0
    | some p => p

/-- Environment of one `TradingEngine.get_postonly_price` call
(trading_engine_new.py lines 58-73): best bid / best ask from the order
book and the symbol's `tickSize` (`none` models a raised exception or a
missing book level / filter). -/
structure DepthEnv where
  bestBid : Option ℚ
  bestAsk : Option ℚ
  tick_size : Option ℚ
  deriving DecidableEq, Repr

/-- `TradingEngine.get_postonly_price`: bid for BUY / ask for SELL rounded
to the tick size; on any failure records `error_reasons[symbol]` and
returns `0.0`. -/
def get_postonly_price (env : DepthEnv) (side : Side) : ℚ × Option Reason :=
  match (match side with | Side.buy => env.bestBid | Side.sell => env.bestAsk), env.tick_size with
  | some p, some t => ((roundHalfEven (p / t) : ℚ) * t, none)
  | _, _ => (0, some Reason.priceFail)

/-- The `is_reverse_open` classification of the round loop's open path
(trading_engine_new.py lines 901-907): the ticker must have an entry in
`current_positions`, and the delta must run against a position that is `≤ 0`
(for a buy) resp. `≥ 0` (for a sell) with the target `≥ 0` resp. `≤ 0` —
the source comment says the condition was widened to also cover the
close-through case `final_target[ticker] == 0`. -/
def is_reverse_open_round (cur? tgt? : Option ℚ) (qty : ℚ) : Bool :=
  cur?.isSome &&
    ((decide (qty > 0) && decide (cur?.getD 0 ≤ 0) && decide (tgt?.getD 0 ≥ 0)) ||
     (decide (qty < 0) && decide (cur?.getD 0 ≥ 0) && decide (tgt?.getD 0 ≤ 0)))

/-- Modelled from the spec: reverse-open per §4.3 step 4 — "side increases
exposure in the direction the position does not currently hold, the
position is currently flat-or-opposite, and the target is nonzero in the
new direction".  Used only to compare the code's classification with the
spec's wording. -/
def spec_reverse_open (cur? tgt? : Option ℚ) (qty : ℚ) : Bool :=
  (decide (qty > 0) && decide (cur?.getD 0 ≤ 0) && decide (tgt?.getD 0 > 0)) ||
  (decide (qty < 0) && decide (cur?.getD 0 ≥ 0) && decide (tgt?.getD 0 < 0))

/-- Outcome of one per-ticker iteration of the round loop (close or open
path).  `skipped reason` performs no submission and records `reason` (if
any) as the last `error_reasons[ticker]` write; `submitted` hands a
postOnly order to the venue; `placeFailed` is the branch that falls through
to `handle_postonly_error`. -/
inductive RoundOutcome
  | skipped (reason : Option Reason)
  | submitted (side : Side) (qty price : ℚ) (isClose : Bool)
  | placeFailed (side : Side) (qty : ℚ) (isClose : Bool)
  deriving DecidableEq, Repr

/-- Membership test of the `close_orders` dict comprehension
(trading_engine_new.py lines 827-836); `processed_tickers` is empty at
that point in the round. -/
def close_selected (cur? tgt? : Option ℚ) (qty : ℚ) : Bool :=
  cur?.isSome &&
    ((decide (cur?.getD 0 ≠ 0) && decide (tgt?.getD 0 = 0)) ||
     (decide (cur?.getD 0 > 0) && decide (tgt?.getD 0 > 0) && decide (qty < 0)) ||
     (decide (cur?.getD 0 < 0) && decide (tgt?.getD 0 < 0) && decide (qty > 0)) ||
     (decide (qty > 0) && decide (cur?.getD 0 < 0)) ||
     (decide (qty < 0) && decide (cur?.getD 0 > 0)))

/-- Body of the close-order loop of one round (trading_engine_new.py lines
837-884) for one ticker.  `avail` is the available balance that is in
scope there; the source never consults it on this path ("平仓无需检查余额",
line 856-857). -/
def closeStep (r : TradingRules) (cur? tgt? : Option ℚ) (qty : ℚ) (pinned : Bool)
    (price : ℚ) (hasExisting : Bool) (placeOk : Bool) (avail : ℚ) : RoundOutcome :=
  if qty = 0 ∨ pinned then RoundOutcome.skipped none
  else
    let cur := cur?.getD 0
    let side := if qty > 0 ∨ cur < 0 then Side.buy else Side.sell
    let qty_to_close := if |qty| < |cur| then |qty| else |cur|
    if price = 0 then RoundOutcome.skipped (some Reason.priceFail)
    else
      let adjusted_qty := (adjust_quantity (some r) qty_to_close price true).1
      if adjusted_qty ≤ 0 then RoundOutcome.skipped (some Reason.qtyZero)
      else if hasExisting then RoundOutcome.skipped none
      else if placeOk then RoundOutcome.submitted side adjusted_qty price true
      else RoundOutcome.placeFailed side qty_to_close true

/-- Body of the open-order loop of one round (trading_engine_new.py lines
890-957) for one ticker: reverse-opens are quantized with `is_close=True`
and skip the margin check; true opens are skipped this round when
`available_balance < adjusted_qty * price / leverage`. -/
def openStep (r : TradingRules) (lev : ℚ) (cur? tgt? : Option ℚ) (qty : ℚ)
    (processed : Bool) (price : ℚ) (hasExisting : Bool) (placeOk : Bool)
    (avail : ℚ) : RoundOutcome :=
  if qty = 0 ∨ processed then RoundOutcome.skipped none
  else if price = 0 then RoundOutcome.skipped (some Reason.priceFail)
  else
    let irev := is_reverse_open_round cur? tgt? qty
    let adjusted_qty := (adjust_quantity (some r) |qty| price irev).1
    if adjusted_qty ≤ 0 then RoundOutcome.skipped (some Reason.qtyZero)
    else if irev = false ∧ avail < adjusted_qty * price / lev then
      RoundOutcome.skipped (some Reason.insufficientBalance)
    else if hasExisting then RoundOutcome.skipped none
    else
      let side := if qty > 0 then Side.buy else Side.sell
      if placeOk then RoundOutcome.submitted side adjusted_qty price irev
      else RoundOutcome.placeFailed side |qty| irev

/-- Modelled from the spec: fill semantics of the external venue for a
market order (`OrderLifecycleClient.PlaceMarketOrder`, §6) — the order
"is expected to fill entirely or be explicitly rejected" (§4.4), and a
reduce-only order "is constrained to only decrease the magnitude of an
existing position" (glossary), so it is rejected when the position is flat
or the side would not reduce it, and otherwise fills at most `|position|`.
Returns the signed position change, `none` when the venue rejects. -/
def market_fill (reduceOnly : Bool) (cur : ℚ) (side : Side) (qty : ℚ)
    (placeOk : Bool) : Option ℚ :=
  if placeOk = false then none
  else if reduceOnly then
    match side with
    | Side.buy => if cur < 0 then some (min qty (-cur)) else none
    | Side.sell => if cur > 0 then some (-(min qty cur)) else none
  else
    match side with
    | Side.buy => some qty
    | Side.sell => some (-qty)

/-- Per-call environment of `TradingEngine.execute_trade`: results of the
API calls it makes.  `account?` is `get_account_info`'s
`availableBalance`, `none` when that call raised (caught by the outer
`except`); `leverageOk` models `set_leverage`, which re-raises on failure;
`placeOk` is the venue's accept/reject decision for the market order. -/
structure ExecCtx where
  tradable : Bool
  leverageOk : Bool
  price : ℚ
  account? : Option ℚ
  placeOk : Bool
  deriving DecidableEq, Repr

/-- Result of `execute_trade`: success flag, signed fill applied to the
venue position, and the last `error_reasons[symbol]` write of the call. -/
structure ExecResult where
  ok : Bool
  fill : ℚ
  reason : Option Reason
  deriving DecidableEq, Repr

/-- The reverse-open test inside `execute_trade` (trading_engine_new.py
lines 172-176): unlike the round loop's version it reads the position
with `.get(symbol, 0)` (no key-presence test) and compares the target
strictly against zero. -/
def exec_reverse_open (tgt? : Option ℚ) (pos : Ticker → ℚ) (symbol : Ticker)
    (side : Side) : Bool :=
  (decide (side = Side.buy) && decide (pos symbol ≤ 0) && decide (tgt?.getD 0 > 0)) ||
  (decide (side = Side.sell) && decide (pos symbol ≥ 0) && decide (tgt?.getD 0 < 0))

/-- `TradingEngine.execute_trade` (trading_engine_new.py lines 132-232).
The available-balance check (lines 153-161) runs before the
reverse-open/close distinction and applies to every order, `is_close`
included.  `pos` is the live position map (`get_current_positions` reads
it with `.get(symbol, 0)`). -/
def execute_trade (r : TradingRules) (lev : ℚ) (tgt? : Option ℚ)
    (pos : Ticker → ℚ) (ctx : ExecCtx) (symbol : Ticker) (side : Side)
    (quantity : ℚ) (is_close : Bool) : ExecResult :=
  if ctx.tradable = false then ⟨false, 0, some Reason.notTradable⟩
  else if ctx.leverageOk = false then ⟨false, 0, some Reason.execException⟩
  else if ctx.price = 0 then ⟨false, 0, some Reason.priceFail⟩
  else
    match ctx.account? with
    | none => ⟨false, 0, some Reason.execException⟩
    | some available_balance =>
      let margin_required := quantity * ctx.price / lev
      if available_balance < margin_required then
        ⟨false, 0, some Reason.insufficientBalance⟩
      else
        let adjusted_qty :=
          (adjust_quantity (some r) quantity ctx.price
            (exec_reverse_open tgt? pos symbol side || is_close)).1
        if adjusted_qty = 0 then ⟨false, 0, some Reason.qtyZero⟩
        else
          match market_fill is_close (pos symbol) side adjusted_qty ctx.placeOk with
          | some fill => ⟨true, fill, none⟩
          | none => ⟨false, 0, some Reason.orderFailed⟩

/-- Run-scoped state threaded through the market-order fallback phase:
venue positions (the authoritative store the engine refetches), the
`error_reasons` map, and the cached available balance. -/
structure FbState where
  pos : Ticker → ℚ
  errors : Ticker → Option Reason
  avail : ℚ
  /-- Ghost observation: the market order request each ticker's
  `execute_trade` call was last given — `(side, quantity, is_close)`. -/
  submits : Ticker → Option (Side × ℚ × Bool)

/-- Overwrite-on-write `error_reasons` update. -/
def writeReason (e : Ticker → Option Reason) (s : Ticker) (reason : Option Reason) :
    Ticker → Option Reason :=
  match reason with
  | none => e
  | some rr => fun t => if t = s then some rr else e t

/-- Pointwise position update by a signed fill. -/
def applyFill (p : Ticker → ℚ) (s : Ticker) (fill : ℚ) : Ticker → ℚ :=
  fun t => if t = s then p s + fill else p t

/-- The fallback's close pre-pass for one ticker (trading_engine_new.py
lines 1118-1131, non-first-day runs): positions whose target is zero are
market-closed first to free margin.  `ectxC s` holds the API results of
the `execute_trade` call for `s`. -/
def fallbackCloseStep (rules : Ticker → TradingRules) (lev : ℚ)
    (target : Ticker → Option ℚ) (ectxC : Ticker → ExecCtx)
    (st : FbState) (s : Ticker) : FbState :=
  if st.pos s ≠ 0 ∧ (target s).getD 0 = 0 then
    let side := if st.pos s < 0 then Side.buy else Side.sell
    let qty_to_close := |st.pos s|
    let res := execute_trade (rules s) lev (target s) st.pos (ectxC s) s side qty_to_close true
    let st' := { st with
      submits := fun t => if t = s then some (side, qty_to_close, true) else st.submits t }
    if res.ok then { st' with pos := applyFill st.pos s res.fill }
    else { st' with errors := writeReason st.errors s res.reason }
  else st

/-- The `is_close` flag the fallback per-delta loop uses for quantization
and submission: `not is_open` with `is_open` = "`ticker in final_target
and final_target[ticker] != 0`" (trading_engine_new.py lines 1150-1151). -/
def fallback_is_close (tgt? : Option ℚ) : Bool :=
  !(tgt?.isSome && decide (tgt?.getD 0 ≠ 0))

/-- The fallback's per-delta loop for one ticker (trading_engine_new.py
lines 1136-1177).  `qty0 s` is the (stale) entry of `force_adjustments`,
computed from the positions at fallback entry; quantization uses
`is_close = fallback_is_close (target s)`; the margin check (lines
1157-1165) applies to every order. -/
def fallbackStep (rules : Ticker → TradingRules) (lev : ℚ)
    (target : Ticker → Option ℚ) (valid : Ticker → Bool) (price : Ticker → ℚ)
    (ectx : Ticker → ExecCtx) (qty0 : Ticker → ℚ)
    (st : FbState) (s : Ticker) : FbState :=
  let qty := qty0 s
  if qty = 0 then st
  else if valid s = false then
    { st with errors := writeReason st.errors s (some Reason.notTradable) }
  else if price s = 0 then
    { st with errors := writeReason st.errors s (some Reason.priceFail) }
  else
    let ic := fallback_is_close (target s)
    let adjusted_qty := (adjust_quantity (some (rules s)) |qty| (price s) ic).1
    if adjusted_qty = 0 then
      { st with errors := writeReason st.errors s (some Reason.qtyZero) }
    else
      let margin_required := adjusted_qty * price s / lev
      if st.avail < margin_required then
        { st with errors := writeReason st.errors s (some Reason.insufficientBalance) }
      else
        let side := if qty > 0 then Side.buy else Side.sell
        let res := execute_trade (rules s) lev (target s) st.pos (ectx s) s side
          adjusted_qty ic
        let st' := { st with
          submits := fun t => if t = s then some (side, adjusted_qty, ic) else st.submits t }
        if res.ok then
          { st' with pos := applyFill st.pos s res.fill, avail := st.avail - margin_required }
        else { st' with errors := writeReason st.errors s res.reason }

/-- The whole market-order fallback phase (trading_engine_new.py lines
1107-1177): recompute `remaining_require` from fresh positions, run the
close pre-pass (non-first-day), refresh the available balance from the
account (`freshAvail`), then run the per-delta loop over the stale
`force_adjustments` map.  When no nonzero residual exists the phase does
nothing. -/
def fallbackPhase (rules : Ticker → TradingRules) (lev : ℚ)
    (target : Ticker → Option ℚ) (valid : Ticker → Bool) (price : Ticker → ℚ)
    (ectxC ectx : Ticker → ExecCtx) (is_first_day : Bool) (freshAvail : ℚ)
    (tickers : List Ticker) (st0 : FbState) : FbState :=
  let remaining := fun s => (target s).getD 0 - st0.pos s
  if tickers.all (fun s => remaining s = 0) then st0
  else
    let st1 := if is_first_day then st0
      else tickers.foldl (fallbackCloseStep rules lev target ectxC) st0
    let st2 : FbState := { st1 with avail := freshAvail }
    tickers.foldl (fallbackStep rules lev target valid price ectx remaining) st2

/-- **C10**: price retrieval never raises: `get_symbol_price` returns the
sentinel `0.0` on every failure (exchange-info failure, symbol not in
TRADING status, missing/invalid ticker price), `get_postonly_price`
returns `0.0` with a recorded reason on every failure, and the
order-submitting call sites — the round loop's close and open paths, the
fallback per-delta loop, and `execute_trade` — all treat price `0` as
price-unavailable: they skip the symbol with a recorded reason and submit
no order. -/
theorem C10_price_sentinel :
    (∀ env : PriceEnv,
      env.exchangeInfoOk = false ∨ env.status ≠ some "TRADING" ∨ env.tickerPrice = none →
      get_symbol_price env = 0) ∧
    (∀ (env : DepthEnv) (side : Side),
      (match side with | Side.buy => env.bestBid | Side.sell => env.bestAsk) = none ∨
        env.tick_size = none →
      get_postonly_price env side = (0, some Reason.priceFail)) ∧
    (∀ (r : TradingRules) (cur? tgt? : Option ℚ) (qty : ℚ) (pinned hasEx placeOk : Bool)
        (avail : ℚ), ¬(qty = 0 ∨ pinned = true) →
      closeStep r cur? tgt? qty pinned 0 hasEx placeOk avail =
        RoundOutcome.skipped (some Reason.priceFail)) ∧
    (∀ (r : TradingRules) (lev : ℚ) (cur? tgt? : Option ℚ) (qty : ℚ)
        (processed hasEx placeOk : Bool) (avail : ℚ), ¬(qty = 0 ∨ processed = true) →
      openStep r lev cur? tgt? qty processed 0 hasEx placeOk avail =
        RoundOutcome.skipped (some Reason.priceFail)) ∧
    (∀ (rules : Ticker → TradingRules) (lev : ℚ) (target : Ticker → Option ℚ)
        (valid : Ticker → Bool) (price : Ticker → ℚ) (ectx : Ticker → ExecCtx)
        (qty0 : Ticker → ℚ) (st : FbState) (s : Ticker),
      qty0 s ≠ 0 → valid s = true → price s = 0 →
      fallbackStep rules lev target valid price ectx qty0 st s =
        { st with errors := writeReason st.errors s (some Reason.priceFail) }) ∧
    (∀ (r : TradingRules) (lev : ℚ) (tgt? : Option ℚ) (pos : Ticker → ℚ)
        (ctx : ExecCtx) (s : Ticker) (side : Side) (quantity : ℚ) (is_close : Bool),
      ctx.tradable = true → ctx.leverageOk = true → ctx.price = 0 →
      execute_trade r lev tgt? pos ctx s side quantity is_close =
        ⟨false, 0, some Reason.priceFail⟩) := by
  refine ⟨?_, ?_, ?_, ?_, ?_, ?_⟩
  · intro env h
    unfold get_symbol_price
    rcases h with h | h | h
    · simp [h]
    · simp [h]
    · rcases henv : env.exchangeInfoOk with _ | _
      · simp
      · by_cases hst : env.status ≠ some "TRADING"
        · simp [hst]
        · simp [h, hst]
  · intro env side h
    unfold get_postonly_price
    rcases side with _ | _ <;> rcases h with h | h <;> simp [h] <;>
      rcases hb : env.bestBid with _ | p <;> rcases ha : env.bestAsk with _ | p' <;> simp_all
  · intro r cur? tgt? qty pinned hasEx placeOk avail h
    have h' : ¬ (qty = 0 ∨ pinned) := by simpa using h
    unfold closeStep
    simp [h']
  · intro r lev cur? tgt? qty processed hasEx placeOk avail h
    have h' : ¬ (qty = 0 ∨ processed) := by simpa using h
    unfold openStep
    simp [h']
  · intro rules lev target valid price ectx qty0 st s hq hv hp
    unfold fallbackStep
    simp [hq, hv, hp]
  · intro r lev tgt? pos ctx s side quantity is_close h1 h2 h3
    unfold execute_trade
    simp [h1, h2, h3]

/-- **C10 witness**: the sentinel and skip behavior at concrete inputs —
a delisted symbol, an order book with no bids, and the round-loop close
path at price `0`. -/
theorem C10_price_sentinel_witness :
    get_symbol_price ⟨true, some "SETTLING", some 7⟩ = 0 ∧
    get_postonly_price ⟨none, some 3, some (1/100)⟩ Side.buy = (0, some Reason.priceFail) ∧
    closeStep rulesMilli (some 5) (some 0) (-5) false 0 false true 100 =
      RoundOutcome.skipped (some Reason.priceFail) := by
  have h := C10_price_sentinel
  exact ⟨h.1 ⟨true, some "SETTLING", some 7⟩ (Or.inr (Or.inl (by decide))),
    h.2.1 ⟨none, some 3, some (1/100)⟩ Side.buy (Or.inl rfl),
    h.2.2.1 rulesMilli (some 5) (some 0) (-5) false false true 100 (by norm_num)⟩

/-- **C6** (amended): the round loop's reverse-open detector fires iff the
ticker has an entry in `current_positions` and the delta runs against a
`≤ 0` (buy) resp. `≥ 0` (sell) position with target `≥ 0` resp. `≤ 0` —
so, unlike the claim, it also fires when the target is zero (the source
deliberately widened it to cover the close-through case) and it never
fires for a flat symbol absent from the map.  When the entry is present
and the target is nonzero it coincides with the spec's reverse-open.
Every detected order is quantized with `isClose=true` and skips the
margin check (the open step's outcome does not depend on the available
balance). -/
theorem C6_reverse_open_amended :
    (∀ (r : TradingRules) (lev : ℚ) (cur? tgt? : Option ℚ) (qty : ℚ)
        (price : ℚ) (hasEx placeOk : Bool) (avail avail' : ℚ),
      is_reverse_open_round cur? tgt? qty = true →
      (openStep r lev cur? tgt? qty false price hasEx placeOk avail =
        openStep r lev cur? tgt? qty false price hasEx placeOk avail') ∧
      (∀ s a p ic, openStep r lev cur? tgt? qty false price hasEx placeOk avail =
          RoundOutcome.submitted s a p ic →
        ic = true ∧ a = (adjust_quantity (some r) |qty| price true).1)) ∧
    (∀ (cur? tgt? : Option ℚ) (qty : ℚ), cur?.isSome = true → tgt?.getD 0 ≠ 0 →
      is_reverse_open_round cur? tgt? qty = spec_reverse_open cur? tgt? qty) := by
  constructor
  · intro r lev cur? tgt? qty price hasEx placeOk avail avail' hrev
    unfold openStep
    simp only [hrev]
    constructor
    · simp
    · intro s a p ic
      split_ifs <;> intro h <;> simp_all <;>
        exact h.2.1.symm.trans (by rw [h.2.2.1])
  · intro cur? tgt? qty hsome hne
    have h1 : (decide (tgt?.getD 0 ≥ 0)) = (decide (tgt?.getD 0 > 0)) := by
      by_cases h : tgt?.getD 0 > 0
      · simp [h, le_of_lt h]
      · have hlt : tgt?.getD 0 < 0 := lt_of_le_of_ne (not_lt.mp h) hne
        simp [not_le.mpr hlt, h]
    have h2 : (decide (tgt?.getD 0 ≤ 0)) = (decide (tgt?.getD 0 < 0)) := by
      by_cases h : tgt?.getD 0 < 0
      · simp [h, le_of_lt h]
      · have hgt : tgt?.getD 0 > 0 := lt_of_le_of_ne (not_lt.mp h) (Ne.symm hne)
        simp [not_le.mpr hgt, h]
    unfold is_reverse_open_round spec_reverse_open
    rw [hsome, h1, h2]
    simp

/-- **C6 counterexample**: at delta `+1`, current `{X: -5}`, target `0`
the code flags a reverse-open and submits with `isClose=true` at zero
available balance, although the spec's definition (target nonzero in the
new direction) does not; and a flat symbol absent from the map with
target `+5` is never flagged although the spec's "flat-or-opposite"
condition holds. -/
theorem C6_reverse_open_cex :
    is_reverse_open_round (some (-5)) (some 0) 1 = true ∧
    spec_reverse_open (some (-5)) (some 0) 1 = false ∧
    is_reverse_open_round none (some 5) 1 = false ∧
    spec_reverse_open none (some 5) 1 = true ∧
    openStep rulesMilli 10 (some (-5)) (some 0) 1 false 100 false true 0 =
      RoundOutcome.submitted Side.buy 1 100 true := by
  refine ⟨by decide, by decide, by decide, by decide, by decide⟩

/-- **C6 witness**: the amended theorem applied at current `-5`,
target `+1.5`, delta `+1`: detection agrees with the spec and the open
step ignores the available balance. -/
theorem C6_reverse_open_amended_witness :
    is_reverse_open_round (some (-5)) (some (3/2)) 1 = true ∧
    (openStep rulesMilli 10 (some (-5)) (some (3/2)) 1 false 100 false true 0 =
      openStep rulesMilli 10 (some (-5)) (some (3/2)) 1 false 100 false true 999) ∧
    is_reverse_open_round (some (-5)) (some (3/2)) 1 = spec_reverse_open (some (-5)) (some (3/2)) 1 := by
  have h := C6_reverse_open_amended
  exact ⟨by decide,
    (h.1 rulesMilli 10 (some (-5)) (some (3/2)) 1 100 false true 0 999 (by decide)).1,
    h.2 (some (-5)) (some (3/2)) 1 (by decide) (by norm_num)⟩

/-- **C4** (amended): in the passive round loop the close path never
consults the available balance (its outcome is invariant in it — the
source comments "closing releases margin, no balance check").  But in the
market execution path (`execute_trade`) and hence in the market-order
fallback, the available-balance check of lines 153-161 runs before the
close/reverse-open distinction and applies to every order: a close order
with `availableBalance < quantity*price/leverage` is rejected with
"insufficient balance". -/
theorem C4_close_margin_amended :
    (∀ (r : TradingRules) (cur? tgt? : Option ℚ) (qty : ℚ) (pinned : Bool)
        (price : ℚ) (hasEx placeOk : Bool) (avail avail' : ℚ),
      closeStep r cur? tgt? qty pinned price hasEx placeOk avail =
        closeStep r cur? tgt? qty pinned price hasEx placeOk avail') ∧
    (∀ (r : TradingRules) (lev : ℚ) (tgt? : Option ℚ) (pos : Ticker → ℚ)
        (ctx : ExecCtx) (s : Ticker) (side : Side) (quantity : ℚ) (is_close : Bool)
        (avail : ℚ),
      ctx.tradable = true → ctx.leverageOk = true → ctx.price ≠ 0 →
      ctx.account? = some avail → avail < quantity * ctx.price / lev →
      execute_trade r lev tgt? pos ctx s side quantity is_close =
        ⟨false, 0, some Reason.insufficientBalance⟩) := by
  constructor
  · intro r cur? tgt? qty pinned price hasEx placeOk avail avail'
    rfl
  · intro r lev tgt? pos ctx s side quantity is_close avail h1 h2 h3 h4 h5
    unfold execute_trade
    rw [h1, h2, h4]
    simp [h3, h5]

/-- **C4 counterexample**: a close order rejected for insufficient
balance.  `execute_trade` with `is_close=true` on a long position of 5,
price 10, leverage 1 and available balance 1 fails with "insufficient
balance"; the fallback per-delta loop does the same for a delta whose
target is zero (a pure close). -/
theorem C4_close_balance_cex :
    execute_trade rulesMilli 1 (some 0) (fun _ => 5) ⟨true, true, 10, some 1, true⟩
        "X" Side.sell 5 true = ⟨false, 0, some Reason.insufficientBalance⟩ ∧
    (fallbackStep (fun _ => rulesMilli) 1 (fun _ => some 0) (fun _ => true) (fun _ => 10)
        (fun _ => ⟨true, true, 10, some 1, true⟩) (fun _ => -5)
        ⟨fun _ => 5, fun _ => none, 1, fun _ => none⟩ "X").errors "X" =
      some Reason.insufficientBalance := by
  refine ⟨by decide, by decide⟩

/-- **C4 witness**: the amended theorem applied to a concrete close
rejection (long 5 at price 10, leverage 1, balance 1). -/
theorem C4_close_margin_amended_witness :
    closeStep rulesMilli (some 5) (some 0) (-5) false 10 false true 0 =
      closeStep rulesMilli (some 5) (some 0) (-5) false 10 false true 777 ∧
    ((1 : ℚ) < 5 * (10:ℚ) / 1 ∧
      execute_trade rulesMilli 1 (some 0) (fun _ => 5) ⟨true, true, 10, some 1, true⟩
        "Y" Side.sell 5 true = ⟨false, 0, some Reason.insufficientBalance⟩) := by
  have h := C4_close_margin_amended
  exact ⟨h.1 rulesMilli (some 5) (some 0) (-5) false 10 false true 0 777,
    by norm_num,
    h.2 rulesMilli 1 (some 0) (fun _ => 5) ⟨true, true, 10, some 1, true⟩ "Y" Side.sell 5
      true 1 rfl rfl (by norm_num) rfl (by norm_num)⟩

/-- **C5** (amended): in the fallback, the quantity is normalized and the
order submitted with `isClose = true` iff the symbol's target is zero or
absent — a reverse-open (nonzero opposite target, as classified by the
round loop) is *not* close-quantized at this call site, so its residual
must pass the open-side min-notional check before `execute_trade`'s
internal re-quantization can treat it as a close; and the balance check
is enforced for *every* delta, not only for true opens.  The submission
itself goes through `execute_trade`, i.e. an immediately-marketable
market order. -/
theorem C5_fallback_amended :
    ∀ (rules : Ticker → TradingRules) (lev : ℚ) (target : Ticker → Option ℚ)
      (valid : Ticker → Bool) (price : Ticker → ℚ) (ectx : Ticker → ExecCtx)
      (qty0 : Ticker → ℚ) (st : FbState) (s : Ticker),
      (∀ side a ic, st.submits s = none →
        (fallbackStep rules lev target valid price ectx qty0 st s).submits s =
          some (side, a, ic) →
        ic = fallback_is_close (target s) ∧
        a = (adjust_quantity (some (rules s)) |qty0 s| (price s) ic).1 ∧
        side = (if qty0 s > 0 then Side.buy else Side.sell)) ∧
      (qty0 s ≠ 0 → valid s = true → price s ≠ 0 →
        (adjust_quantity (some (rules s)) |qty0 s| (price s)
            (fallback_is_close (target s))).1 ≠ 0 →
        st.avail < (adjust_quantity (some (rules s)) |qty0 s| (price s)
            (fallback_is_close (target s))).1 * price s / lev →
        (fallbackStep rules lev target valid price ectx qty0 st s).errors s =
            some Reason.insufficientBalance ∧
          (fallbackStep rules lev target valid price ectx qty0 st s).submits s =
            st.submits s) := by
  intro rules lev target valid price ectx qty0 st s
  constructor
  · intro side a ic hnone hsub
    unfold fallbackStep at hsub
    by_cases h1 : qty0 s = 0
    · rw [if_pos h1] at hsub
      rw [hnone] at hsub
      cases hsub
    · rw [if_neg h1] at hsub
      by_cases h2 : valid s = false
      · rw [if_pos h2] at hsub
        simp only at hsub
        rw [hnone] at hsub
        cases hsub
      · rw [if_neg h2] at hsub
        by_cases h3 : price s = 0
        · rw [if_pos h3] at hsub
          simp only at hsub
          rw [hnone] at hsub
          cases hsub
        · rw [if_neg h3] at hsub
          simp only at hsub
          by_cases h4 : (adjust_quantity (some (rules s)) |qty0 s| (price s)
              (fallback_is_close (target s))).1 = 0
          · rw [if_pos h4] at hsub
            simp only at hsub
            rw [hnone] at hsub
            cases hsub
          · rw [if_neg h4] at hsub
            by_cases h5 : st.avail < (adjust_quantity (some (rules s)) |qty0 s| (price s)
                (fallback_is_close (target s))).1 * price s / lev
            · rw [if_pos h5] at hsub
              simp only at hsub
              rw [hnone] at hsub
              cases hsub
            · rw [if_neg h5] at hsub
              have hsub' : some ((if qty0 s > 0 then Side.buy else Side.sell),
                  (adjust_quantity (some (rules s)) |qty0 s| (price s)
                    (fallback_is_close (target s))).1,
                  fallback_is_close (target s)) = some (side, a, ic) := by
                by_cases hok : (execute_trade (rules s) lev (target s) st.pos (ectx s) s
                    (if qty0 s > 0 then Side.buy else Side.sell)
                    (adjust_quantity (some (rules s)) |qty0 s| (price s)
                      (fallback_is_close (target s))).1
                    (fallback_is_close (target s))).ok = true
                · rw [if_pos hok] at hsub
                  simpa using hsub
                · rw [if_neg hok] at hsub
                  simpa using hsub
              have h6 := Option.some.inj hsub'
              have hside : (if qty0 s > 0 then Side.buy else Side.sell) = side :=
                congrArg Prod.fst h6
              have ha : (adjust_quantity (some (rules s)) |qty0 s| (price s)
                  (fallback_is_close (target s))).1 = a := congrArg (Prod.fst ∘ Prod.snd) h6
              have hic : fallback_is_close (target s) = ic := congrArg (Prod.snd ∘ Prod.snd) h6
              exact ⟨hic.symm, by rw [← ha, ← hic], hside.symm⟩
  · intro hq hv hp hadj hbal
    unfold fallbackStep
    rw [if_neg hq]
    have hv' : ¬ valid s = false := by simp [hv]
    rw [if_neg hv', if_neg hp]
    simp only
    rw [if_neg hadj, if_pos hbal]
    simp [writeReason]

/-- **C5 counterexample**: a reverse-open residual (current `+1`, target
`-1`, delta `-2`) at price 1 with `minNotional 5`: the round loop's
classifier calls it a reverse-open, close-side quantization would keep
quantity 2, but the fallback normalizes with `isClose = false` (target
nonzero), the notional check zeroes the quantity, and the step records
"quantity adjusted to 0" and submits nothing. -/
theorem C5_fallback_cex :
    is_reverse_open_round (some 1) (some (-1)) (-2) = true ∧
    (adjust_quantity (some rulesMilli) 2 1 true).1 = 2 ∧
    fallback_is_close (some (-1)) = false ∧
    (fallbackStep (fun _ => rulesMilli) 1 (fun _ => some (-1)) (fun _ => true) (fun _ => 1)
        (fun _ => ⟨true, true, 1, some 100, true⟩) (fun _ => -2)
        ⟨fun _ => 1, fun _ => none, 100, fun _ => none⟩ "X").submits "X" = none ∧
    (fallbackStep (fun _ => rulesMilli) 1 (fun _ => some (-1)) (fun _ => true) (fun _ => 1)
        (fun _ => ⟨true, true, 1, some 100, true⟩) (fun _ => -2)
        ⟨fun _ => 1, fun _ => none, 100, fun _ => none⟩ "X").errors "X" =
      some Reason.qtyZero := by
  refine ⟨by decide, by decide, by decide, by decide, by decide⟩

/-- **C5 witness**: the amended theorem applied to a pure close residual
(target 0, position 5, delta `-5`): the submission carries
`isClose = true` and close-side quantity 5; and a balance-short close is
skipped with "insufficient balance". -/
theorem C5_fallback_amended_witness :
    ((fallbackStep (fun _ => rulesMilli) 1 (fun _ => some 0) (fun _ => true) (fun _ => 10)
        (fun _ => ⟨true, true, 10, some 1000, true⟩) (fun _ => -5)
        ⟨fun _ => 5, fun _ => none, 1000, fun _ => none⟩ "X").submits "X" =
      some (Side.sell, 5, true) →
      (true = fallback_is_close (some (0:ℚ)) ∧
        (5:ℚ) = (adjust_quantity (some rulesMilli) |(-5:ℚ)| 10 true).1 ∧
        Side.sell = (if (-5:ℚ) > 0 then Side.buy else Side.sell))) ∧
    (fallbackStep (fun _ => rulesMilli) 1 (fun _ => some 0) (fun _ => true) (fun _ => 10)
        (fun _ => ⟨true, true, 10, some 1, true⟩) (fun _ => -5)
        ⟨fun _ => 5, fun _ => none, 1, fun _ => none⟩ "X").errors "X" =
      some Reason.insufficientBalance := by
  constructor
  · exact fun hsub => (C5_fallback_amended (fun _ => rulesMilli) 1 (fun _ => some 0)
      (fun _ => true) (fun _ => 10) (fun _ => ⟨true, true, 10, some 1000, true⟩)
      (fun _ => -5) ⟨fun _ => 5, fun _ => none, 1000, fun _ => none⟩ "X").1
      Side.sell 5 true rfl hsub
  · exact ((C5_fallback_amended (fun _ => rulesMilli) 1 (fun _ => some 0)
      (fun _ => true) (fun _ => 10) (fun _ => ⟨true, true, 10, some 1, true⟩)
      (fun _ => -5) ⟨fun _ => 5, fun _ => none, 1, fun _ => none⟩ "X").2
      (by norm_num) rfl (by norm_num) (by decide) (by decide)).1

/-- API results of one iteration of `handle_postonly_error`'s retry loop:
the `check_existing_orders` answer, the refreshed
`get_postonly_price` result, and the venue's accept/reject of the
resubmitted postOnly order. -/
structure RetryEnv where
  hasExisting : Bool
  price : ℚ
  placeOk : Bool
  deriving DecidableEq, Repr

inductive RetryResult
  | succeeded (orderQty : ℚ)
  | stoppedExisting
  | timedOut
  deriving DecidableEq, Repr

/-- The bounded retry loop of `TradingEngine.handle_postonly_error`
(trading_engine_new.py lines 1318-1353): while not successful and within
the 60-second budget, re-check for an existing order, refresh the price,
re-quantize and resubmit; every non-terminal iteration sleeps 1 second,
so the budget is modelled as a fuel of whole seconds.  Returns the result
and the number of submission attempts made. -/
def retryLoop (r : TradingRules) (qty : ℚ) (ic : Bool) (envs : ℕ → RetryEnv) :
    ℕ → ℕ → RetryResult × ℕ
  | _, 0 => (RetryResult.timedOut, 0)
  | i, fuel + 1 =>
    let e := envs i
    if e.hasExisting then (RetryResult.stoppedExisting, 0)
    else if e.price = 0 then retryLoop r qty ic envs (i + 1) fuel
    else
      let adjusted_qty := (adjust_quantity (some r) |qty| e.price ic).1
      if adjusted_qty ≤ 0 then retryLoop r qty ic envs (i + 1) fuel
      else if e.placeOk then (RetryResult.succeeded adjusted_qty, 1)
      else
        let rest := retryLoop r qty ic envs (i + 1) fuel
        (rest.1, rest.2 + 1)

/-- The reason written after the retry loop: none on success, the
postOnly failure reason otherwise (lines 1355-1357). -/
def retryReason : RetryResult → Option Reason
  | RetryResult.succeeded _ => none
  | _ => some Reason.postonlyFailed

/-- `TradingEngine.handle_postonly_error` (lines 1309-1357): the retry
loop runs only when the rejection message carries `APIError(code=-5022)`
(the would-cross-spread code); in every non-success outcome the failure
reason is recorded for the ticker, and on success no reason is written by
this call. -/
def handle_postonly_error (r : TradingRules) (qty : ℚ) (ic : Bool)
    (is5022 : Bool) (envs : ℕ → RetryEnv) : (RetryResult × ℕ) × Option Reason :=
  if is5022 then
    let out := retryLoop r qty ic envs 0 60
    (out, retryReason out.1)
  else ((RetryResult.timedOut, 0), some Reason.postonlyFailed)

/-- The retry loop makes at most `fuel` submission attempts. -/
theorem retryLoop_attempts_le (r : TradingRules) (qty : ℚ) (ic : Bool)
    (envs : ℕ → RetryEnv) : ∀ fuel i, (retryLoop r qty ic envs i fuel).2 ≤ fuel := by
  intro fuel
  induction fuel with
  | zero => intro i; simp [retryLoop]
  | succ n ih =>
    intro i
    unfold retryLoop
    dsimp only
    split_ifs <;> simp_all <;>
      first
        | exact le_trans (ih (i + 1)) (Nat.le_succ n)
        | exact Nat.succ_le_succ (ih (i + 1))

/-- **C8**: `handle_postonly_error` retries if and only if the rejection
carries the specific would-cross-spread code `-5022`: on any other failure
it makes zero retry attempts and records the failure reason immediately;
on `-5022` the retry is bounded by the 60-second budget (at most 60
submission attempts, one per elapsed second), after which — and in every
other non-success outcome — the failure reason is recorded; a successful
retry records no reason. -/
theorem C8_postonly_retry (r : TradingRules) (qty : ℚ) (ic is5022 : Bool)
    (envs : ℕ → RetryEnv) :
    (is5022 = false →
      handle_postonly_error r qty ic is5022 envs =
        ((RetryResult.timedOut, 0), some Reason.postonlyFailed)) ∧
    (handle_postonly_error r qty ic is5022 envs).1.2 ≤ 60 ∧
    (∀ a, (handle_postonly_error r qty ic is5022 envs).1.1 = RetryResult.succeeded a →
      (handle_postonly_error r qty ic is5022 envs).2 = none) ∧
    ((∀ a, (handle_postonly_error r qty ic is5022 envs).1.1 ≠ RetryResult.succeeded a) →
      (handle_postonly_error r qty ic is5022 envs).2 = some Reason.postonlyFailed) := by
  refine ⟨?_, ?_, ?_, ?_⟩
  · intro h
    simp [handle_postonly_error, h]
  · cases h5 : is5022 with
    | false => simp [handle_postonly_error, h5]
    | true =>
      simp only [handle_postonly_error, h5, if_true]
      exact retryLoop_attempts_le r qty ic envs 60 0
  · intro a ha
    cases h5 : is5022 with
    | false =>
      simp only [handle_postonly_error, h5, if_false] at ha ⊢
      cases ha
    | true =>
      simp only [handle_postonly_error, h5, if_true] at ha ⊢
      rw [ha]
      rfl
  · intro hne
    cases h5 : is5022 with
    | false => simp [handle_postonly_error, h5]
    | true =>
      simp only [handle_postonly_error, h5, if_true] at hne ⊢
      cases hr : (retryLoop r qty ic envs 0 60).1 with
      | succeeded a => exact absurd hr (hne a)
      | stoppedExisting => rfl
      | timedOut => rfl

/-- **C8 witness**: a non-`-5022` failure gives up immediately with the
reason and zero attempts; and on `-5022` the attempt count is within the
60-second budget. -/
theorem C8_postonly_retry_witness :
    handle_postonly_error rulesMilli 2 true false (fun _ => ⟨false, 10, false⟩) =
      ((RetryResult.timedOut, 0), some Reason.postonlyFailed) ∧
    (handle_postonly_error rulesMilli 2 true true (fun _ => ⟨false, 10, true⟩)).1.2 ≤ 60 := by
  exact ⟨(C8_postonly_retry rulesMilli 2 true false (fun _ => ⟨false, 10, false⟩)).1 rfl,
    (C8_postonly_retry rulesMilli 2 true true (fun _ => ⟨false, 10, true⟩)).2.1⟩

/-- The post-submission order-status polling of
`BinanceFuturesClient.place_postonly_order` (binance_client.py lines
380-390): `while True: try futures_get_order; if truthy break; except
sleep(0.5)`.  `resp i` is the i-th response (`none` = exception or empty
response, both of which continue the loop).  `fuel` counts iterations;
the result is `none` when the loop is still running after `fuel`
iterations — the source itself has no bound. -/
def pollStatus (resp : ℕ → Option String) : ℕ → ℕ → Option String
  | _, 0 => none
  | i, fuel + 1 =>
    match resp i with
    | some st => some st
    | none => pollStatus resp (i + 1) fuel

/-- The claim's reading of the status poll: some finite ceiling `N` after
which the poll has always completed, whatever the venue returns. -/
def PollHasCeiling : Prop :=
  ∃ N : ℕ, ∀ resp : ℕ → Option String, (pollStatus resp 0 N).isSome

/-- The per-round fill-wait loop (trading_engine_new.py lines 960-1028):
up to 30 seconds polled at 2-second sleeps, so at most 15 iterations;
the loop ends early once no order is pending.  The per-iteration order
processing is abstracted as `step` on a state `α`, `done` as the
emptiness test of the pending list.  Returns the final state and the
number of polling iterations performed. -/
def fillWaitLoop {α : Type} (step : α → α) (done : α → Bool) :
    α → ℕ → α × ℕ
  | st, 0 => (st, 0)
  | st, fuel + 1 =>
    let st' := step st
    if done st' then (st', 1)
    else
      let rest := fillWaitLoop step done st' fuel
      (rest.1, rest.2 + 1)

/-- The outer reconciliation loop (trading_engine_new.py lines 790-822):
`while True` with the elapsed-time check `elapsed >= max_wait_seconds →
break` at the round boundary.  `duration i` is the wall-clock cost of
round `i`; a real round always consumes time (API round-trips, sleeps),
modelled as at least one time unit.  Returns the number of rounds run
before the budget check fires (convergence can only end it earlier). -/
def roundsRun (duration : ℕ → ℕ) : ℕ → ℕ → ℕ
  | 0, _ => 0
  | left + 1, i => 1 + roundsRun duration (left + 1 - max 1 (duration i)) (i + 1)
termination_by left _ => left
decreasing_by
  simp_wf

theorem roundsRun_le (duration : ℕ → ℕ) :
    ∀ left i, roundsRun duration left i ≤ left := by
  intro left
  induction left using Nat.strong_induction_on with
  | _ left ih =>
    intro i
    cases left with
    | zero =>
      unfold roundsRun
      exact le_refl 0
    | succ n =>
      unfold roundsRun
      have hlt : n + 1 - max 1 (duration i) < n + 1 := by omega
      have := ih (n + 1 - max 1 (duration i)) hlt (i + 1)
      omega

/-- **C3 counterexample**: the order-status poll right after a postOnly
submission has no explicit ceiling — for a venue that keeps failing the
status query, the loop is still running after any number of iterations,
so no finite `N` bounds the wait, refuting "no operation inside the
engine can block indefinitely". -/
theorem C3_unbounded_poll_cex :
    ¬ PollHasCeiling ∧ (∀ N, pollStatus (fun _ => none) 0 N = none) := by
  have hnone : ∀ N i, pollStatus (fun _ => none) i N = none := by
    intro N
    induction N with
    | zero => intro i; rfl
    | succ n ih => intro i; simpa [pollStatus] using ih (i + 1)
  refine ⟨?_, fun N => hnone N 0⟩
  rintro ⟨N, h⟩
  have := h (fun _ => none)
  rw [hnone N 0] at this
  cases this

/-- **C3** (amended): the per-round fill wait is bounded — at most 15
polls of the 30-second window at 2-second sleeps; the postOnly rejection
retry is bounded by its 60-second budget; and the outer loop runs at most
`budget` rounds because the elapsed-time check at each round boundary
fires once the budget has passed (each round consumes at least one time
unit).  Amendment forced by the counterexample: the order-status and
trade-detail polling inside `place_postonly_order` has no ceiling — the
status loop exits on the first truthy response (even `NEW`), so it is a
status query that keeps raising or returning an empty response (or, in
the second loop, a trade-detail query that keeps failing) that blocks
forever — so "no operation inside the engine can block indefinitely"
does not hold there. -/
theorem C3_bounded_waits_amended :
    (∀ {α : Type} (step : α → α) (done : α → Bool) (st : α),
      (fillWaitLoop step done st 15).2 ≤ 15) ∧
    (∀ (r : TradingRules) (qty : ℚ) (ic : Bool) (envs : ℕ → RetryEnv),
      (retryLoop r qty ic envs 0 60).2 ≤ 60) ∧
    (∀ (duration : ℕ → ℕ) (budget : ℕ), roundsRun duration budget 0 ≤ budget) := by
  have hfill : ∀ {α : Type} (step : α → α) (done : α → Bool) (fuel : ℕ) (st : α),
      (fillWaitLoop step done st fuel).2 ≤ fuel := by
    intro α step done fuel
    induction fuel with
    | zero => intro st; simp [fillWaitLoop]
    | succ n ih =>
      intro st
      rw [fillWaitLoop]
      dsimp only
      split_ifs with h
      · simp
      · simpa using Nat.succ_le_succ (ih (step st))
  exact ⟨fun step done st => hfill step done 15 st,
    fun r qty ic envs => retryLoop_attempts_le r qty ic envs 60 0,
    fun duration budget => roundsRun_le duration budget 0⟩

/-- Run-scoped state visible to the round-end bookkeeping: the (mutable)
target map `final_target`, the pin set `adjusted_to_zero`, the error map,
and the residual order map `all_orders` (`none` = ticker not present). -/
structure RoundState where
  final_target : Ticker → Option ℚ
  adjusted_to_zero : Ticker → Bool
  errors : Ticker → Option Reason
  all_orders : Ticker → Option ℚ

/-- Per-round external reads used by the round-end bookkeeping: fresh
positions (`get_stable_positions`, zero-filtered so presence ≡ nonzero),
per-ticker last price, and the quantization rules. -/
structure RoundEnv where
  fresh : Ticker → ℚ
  price : Ticker → ℚ
  rules : Ticker → TradingRules

/-- Recomputation of `all_orders` at the end of a round
(trading_engine_new.py lines 1073-1077): the delta for every ticker where
target and fresh position differ. -/
def recomputeOrders (target : Ticker → Option ℚ) (fresh : Ticker → ℚ) :
    Ticker → Option ℚ :=
  fun s => if (target s).getD 0 ≠ fresh s then some ((target s).getD 0 - fresh s) else none

/-- The small-residual pin condition of lines 1083-1093 for one ticker
with residual `qty` at price `price`: the move must be an open
(`is_open and not is_close_order`) and the close-side/open-side
quantization (with `is_close = is_close_order`) must give 0 or a notional
under the hardcoded 5. -/
def pinCond (r : TradingRules) (tgt? : Option ℚ) (cur : ℚ) (qty price : ℚ) : Bool :=
  let is_close_order := decide (cur ≠ 0) &&
    (tgt?.isNone || decide (tgt?.getD 0 = 0) || decide (tgt?.getD 0 * cur < 0))
  let adjusted_qty := (adjust_quantity (some r) |qty| price is_close_order).1
  let is_open := tgt?.isSome && decide (tgt?.getD 0 ≠ 0)
  is_open && !is_close_order && (decide (adjusted_qty = 0) || decide (adjusted_qty * price < 5))

/-- End-of-round bookkeeping (trading_engine_new.py lines 1072-1100):
refetch positions, recompute `all_orders`; on non-first-day runs pin every
small residual opening delta — set its target to the current position,
add it to `adjusted_to_zero`, record the reason — and drop every pinned
ticker from `all_orders`. -/
def roundEnd (env : RoundEnv) (is_first_day : Bool) (st : RoundState) : RoundState :=
  let orders1 := recomputeOrders st.final_target env.fresh
  if is_first_day then
    { st with all_orders := orders1 }
  else
    let pinsNow : Ticker → Bool := fun s =>
      match orders1 s with
      | none => false
      | some qty => decide (env.price s ≠ 0) &&
          pinCond (env.rules s) (st.final_target s) (env.fresh s) qty (env.price s)
    { final_target := fun s => if pinsNow s then some (env.fresh s) else st.final_target s,
      adjusted_to_zero := fun s => st.adjusted_to_zero s || pinsNow s,
      errors := fun s => if pinsNow s then some Reason.smallAdjust else st.errors s,
      all_orders := fun s => if st.adjusted_to_zero s || pinsNow s then none else orders1 s }

/-- A run's sequence of rounds, threaded through the round-end
bookkeeping (the flag `is_first_day` is fixed for the whole run). -/
def runRounds (is_first_day : Bool) (envs : List RoundEnv) (st : RoundState) : RoundState :=
  envs.foldl (fun st' e => roundEnd e is_first_day st') st

/-- **C7**: on a non-first-day run, a residual opening delta whose
`is_close = is_close_order` quantization is 0 (which is forced whenever
its normalized notional is below `min_notional`) is pinned: the target is
set to the current position, the ticker joins `adjusted_to_zero`, a
reason is recorded and the ticker leaves `all_orders`; and pinning is
monotonic — a pinned ticker stays pinned and never reappears with a
nonzero entry in `all_orders` after any later round of the same run. -/
theorem C7_pinning_monotone (env : RoundEnv) (st : RoundState) (s : Ticker) :
    (∀ qty, recomputeOrders st.final_target env.fresh s = some qty →
      env.price s ≠ 0 →
      pinCond (env.rules s) (st.final_target s) (env.fresh s) qty (env.price s) = true →
      (roundEnd env false st).final_target s = some (env.fresh s) ∧
      (roundEnd env false st).adjusted_to_zero s = true ∧
      (roundEnd env false st).errors s = some Reason.smallAdjust ∧
      (roundEnd env false st).all_orders s = none) ∧
    (∀ (r : TradingRules) (tgt? : Option ℚ) (cur qty price : ℚ),
      tgt?.isSome = true → tgt?.getD 0 ≠ 0 →
      (decide (cur ≠ 0) && (tgt?.isNone || decide (tgt?.getD 0 = 0) ||
        decide (tgt?.getD 0 * cur < 0))) = false →
      ((adjust_quantity (some r) |qty| price false).1 = 0 ∨
        (adjust_quantity (some r) |qty| price false).1 * price < r.min_notional) →
      0 < price →
      pinCond r tgt? cur qty price = true) ∧
    (∀ envs, st.adjusted_to_zero s = true → st.all_orders s = none →
      (runRounds false envs st).adjusted_to_zero s = true ∧
      (runRounds false envs st).all_orders s = none) := by
  refine ⟨?_, ?_, ?_⟩
  · intro qty hq hp hpin
    unfold roundEnd
    simp only [if_neg (Bool.false_ne_true)]
    refine ⟨?_, ?_, ?_, ?_⟩ <;>
      (simp only [hq]
       simp [hp, hpin])
  · intro r tgt? cur qty price hsome hne hco hz hppos
    unfold pinCond
    rw [hco]
    simp only [hsome, Bool.true_and, Bool.not_false, Bool.and_true]
    have hz0 : (adjust_quantity (some r) |qty| price false).1 = 0 := by
      rcases hz with hz | hz
      · exact hz
      · by_contra hnz
        exact absurd (lt_of_le_of_lt (adjust_quantity_open_notional r |qty| price hnz) hz)
          (lt_irrefl _)
    simp [hne, hz0]
  · intro envs hpin horders
    induction envs generalizing st with
    | nil => exact ⟨hpin, horders⟩
    | cons e rest ih =>
      have h1 : (roundEnd e false st).adjusted_to_zero s = true := by
        unfold roundEnd
        simp [hpin]
      have h2 : (roundEnd e false st).all_orders s = none := by
        unfold roundEnd
        simp [hpin]
      exact ih (roundEnd e false st) h1 h2

/-- **C7 witness**: a concrete pin.  Target `+0.01`, fresh position
`+0.0096`: the residual `0.0004` is an opening delta that quantizes to 0,
so the round end pins the ticker, and it stays out of `all_orders` in two
later rounds. -/
theorem C7_pinning_monotone_witness :
    (recomputeOrders (fun _ => some (1/100)) (fun _ => 96/10000) "X" = some (4/10000)) ∧
    pinCond rulesMilli (some (1/100)) (96/10000) (4/10000) 50 = true ∧
    (roundEnd ⟨fun _ => 96/10000, fun _ => 50, fun _ => rulesMilli⟩ false
      ⟨fun _ => some (1/100), fun _ => false, fun _ => none,
        recomputeOrders (fun _ => some (1/100)) (fun _ => 96/10000)⟩).adjusted_to_zero "X" = true ∧
    (runRounds false
      [⟨fun _ => 96/10000, fun _ => 50, fun _ => rulesMilli⟩,
       ⟨fun _ => 96/10000, fun _ => 50, fun _ => rulesMilli⟩]
      (roundEnd ⟨fun _ => 96/10000, fun _ => 50, fun _ => rulesMilli⟩ false
        ⟨fun _ => some (1/100), fun _ => false, fun _ => none,
          recomputeOrders (fun _ => some (1/100)) (fun _ => 96/10000)⟩)).all_orders "X" = none := by
  have henv : recomputeOrders (fun _ => some (1/100)) (fun _ => (96:ℚ)/10000) "X" =
      some (4/10000) := by decide
  have hpin : pinCond rulesMilli (some (1/100)) (96/10000) (4/10000) 50 = true := by decide
  have hfirst := (C7_pinning_monotone
    ⟨fun _ => 96/10000, fun _ => 50, fun _ => rulesMilli⟩
    ⟨fun _ => some (1/100), fun _ => false, fun _ => none,
      recomputeOrders (fun _ => some (1/100)) (fun _ => 96/10000)⟩ "X").1
    (4/10000) henv (by norm_num) hpin
  refine ⟨henv, hpin, hfirst.2.1, ?_⟩
  exact ((C7_pinning_monotone
    ⟨fun _ => 96/10000, fun _ => 50, fun _ => rulesMilli⟩
    (roundEnd ⟨fun _ => 96/10000, fun _ => 50, fun _ => rulesMilli⟩ false
      ⟨fun _ => some (1/100), fun _ => false, fun _ => none,
        recomputeOrders (fun _ => some (1/100)) (fun _ => 96/10000)⟩) "X").2.2
    [⟨fun _ => 96/10000, fun _ => 50, fun _ => rulesMilli⟩,
     ⟨fun _ => 96/10000, fun _ => 50, fun _ => rulesMilli⟩]
    hfirst.2.1 hfirst.2.2.2).2

/-- Every failing `execute_trade` records a reason. -/
theorem execute_trade_fail_reason (r : TradingRules) (lev : ℚ) (tgt? : Option ℚ)
    (pos : Ticker → ℚ) (ctx : ExecCtx) (symbol : Ticker) (side : Side)
    (quantity : ℚ) (is_close : Bool)
    (h : (execute_trade r lev tgt? pos ctx symbol side quantity is_close).ok = false) :
    ((execute_trade r lev tgt? pos ctx symbol side quantity is_close).reason).isSome := by
  unfold execute_trade at h ⊢
  split_ifs at h ⊢ <;> try simp_all
  rcases hacc : ctx.account? with _ | ab
  · simp_all
  · try simp only [hacc] at h ⊢
    try dsimp only at h ⊢
    split_ifs at h ⊢ <;> try simp_all
    rcases hm : market_fill is_close (pos symbol) side
        ((adjust_quantity (some r) quantity ctx.price
          (exec_reverse_open tgt? pos symbol side || is_close)).1) ctx.placeOk with _ | fill <;>
      (try simp only [hm] at h ⊢) <;> simp_all

/-- A successful `execute_trade` fills exactly what the venue's
`market_fill` returns for its internally re-quantized quantity, and
writes no reason. -/
theorem execute_trade_ok_fill (r : TradingRules) (lev : ℚ) (tgt? : Option ℚ)
    (pos : Ticker → ℚ) (ctx : ExecCtx) (symbol : Ticker) (side : Side)
    (quantity : ℚ) (is_close : Bool)
    (h : (execute_trade r lev tgt? pos ctx symbol side quantity is_close).ok = true) :
    market_fill is_close (pos symbol) side
      ((adjust_quantity (some r) quantity ctx.price
        (exec_reverse_open tgt? pos symbol side || is_close)).1) ctx.placeOk =
      some ((execute_trade r lev tgt? pos ctx symbol side quantity is_close).fill) ∧
    (adjust_quantity (some r) quantity ctx.price
        (exec_reverse_open tgt? pos symbol side || is_close)).1 ≠ 0 := by
  unfold execute_trade at h ⊢
  split_ifs at h ⊢ <;> try simp_all
  rcases hacc : ctx.account? with _ | ab
  · simp_all
  · try simp only [hacc] at h ⊢
    try dsimp only at h ⊢
    split_ifs at h ⊢ <;> try simp_all
    rcases hm : market_fill is_close (pos symbol) side
        ((adjust_quantity (some r) quantity ctx.price
          (exec_reverse_open tgt? pos symbol side || is_close)).1) ctx.placeOk with _ | fill <;>
      (try simp only [hm] at h ⊢) <;> simp_all

/-- Non-reduce-only market orders fill the full requested quantity. -/
theorem market_fill_not_reduce (cur : ℚ) (side : Side) (q : ℚ) (ok : Bool) (f : ℚ)
    (h : market_fill false cur side q ok = some f) :
    f = (match side with | Side.buy => q | Side.sell => -q) := by
  unfold market_fill at h
  rcases side with _ | _ <;> split_ifs at h <;> simp_all

/-- Reduce-only market orders only ever fill toward zero, by at most the
open amount, and are rejected on a flat or same-side position. -/
theorem market_fill_reduce (cur : ℚ) (side : Side) (q : ℚ) (ok : Bool) (f : ℚ)
    (h : market_fill true cur side q ok = some f) :
    (side = Side.buy ∧ cur < 0 ∧ f = min q (-cur)) ∨
    (side = Side.sell ∧ 0 < cur ∧ f = -(min q cur)) := by
  unfold market_fill at h
  rcases side with _ | _ <;> split_ifs at h <;> simp_all

theorem writeReason_ne (e : Ticker → Option Reason) (t s : Ticker) (rr : Option Reason)
    (h : t ≠ s) : writeReason e t rr s = e s := by
  cases rr with
  | none => rfl
  | some x => simp [writeReason, Ne.symm h]

theorem writeReason_self_isSome (e : Ticker → Option Reason) (s : Ticker)
    (rr : Option Reason) (h : rr.isSome) : (writeReason e s rr s).isSome := by
  cases rr with
  | none => cases h
  | some x => simp [writeReason]

theorem applyFill_ne (p : Ticker → ℚ) (t s : Ticker) (f : ℚ) (h : t ≠ s) :
    applyFill p t f s = p s := by
  simp [applyFill, Ne.symm h]

theorem applyFill_self (p : Ticker → ℚ) (s : Ticker) (f : ℚ) :
    applyFill p s f s = p s + f := by
  simp [applyFill]

/-- A fallback close pre-pass step for ticker `t` does not touch the
position or error entry of another ticker `s`. -/
theorem fallbackCloseStep_frame (rules : Ticker → TradingRules) (lev : ℚ)
    (target : Ticker → Option ℚ) (ectxC : Ticker → ExecCtx) (st : FbState)
    (t s : Ticker) (h : t ≠ s) :
    (fallbackCloseStep rules lev target ectxC st t).pos s = st.pos s ∧
    (fallbackCloseStep rules lev target ectxC st t).errors s = st.errors s := by
  unfold fallbackCloseStep
  dsimp only
  split_ifs <;>
    refine ⟨?_, ?_⟩ <;>
    simp only [] <;>
    first
      | rfl
      | exact writeReason_ne st.errors t s _ h
      | exact applyFill_ne st.pos t s _ h

/-- A fallback per-delta step for ticker `t` does not touch the position
or error entry of another ticker `s`. -/
theorem fallbackStep_frame (rules : Ticker → TradingRules) (lev : ℚ)
    (target : Ticker → Option ℚ) (valid : Ticker → Bool) (price : Ticker → ℚ)
    (ectx : Ticker → ExecCtx) (qty0 : Ticker → ℚ) (st : FbState)
    (t s : Ticker) (h : t ≠ s) :
    (fallbackStep rules lev target valid price ectx qty0 st t).pos s = st.pos s ∧
    (fallbackStep rules lev target valid price ectx qty0 st t).errors s = st.errors s := by
  unfold fallbackStep
  dsimp only
  split_ifs <;>
    refine ⟨?_, ?_⟩ <;>
    simp only [] <;>
    first
      | rfl
      | exact writeReason_ne st.errors t s _ h
      | exact applyFill_ne st.pos t s _ h

/-- Folding a frame-respecting step over a list that does not contain `s`
leaves `s`'s position and error entry unchanged. -/
theorem foldl_frame {step : FbState → Ticker → FbState}
    (hframe : ∀ st t s, t ≠ s →
      (step st t).pos s = st.pos s ∧ (step st t).errors s = st.errors s) :
    ∀ (l : List Ticker) (st : FbState) (s : Ticker), s ∉ l →
      (l.foldl step st).pos s = st.pos s ∧ (l.foldl step st).errors s = st.errors s := by
  intro l
  induction l with
  | nil => exact fun st s _ => ⟨rfl, rfl⟩
  | cons t rest ih =>
    intro st s hs
    have hts : t ≠ s := fun he => hs (he ▸ List.mem_cons_self t rest)
    have h1 := hframe st t s hts
    have h2 := ih (step st t) s (fun hm => hs (List.mem_cons_of_mem t hm))
    exact ⟨h2.1.trans h1.1, h2.2.trans h1.2⟩

/-- The close pre-pass at its own ticker: the position either stays or
reaches the (zero) target. -/
theorem fallbackCloseStep_own (rules : Ticker → TradingRules) (lev : ℚ)
    (target : Ticker → Option ℚ) (ectxC : Ticker → ExecCtx) (price : Ticker → ℚ)
    (st0 st : FbState) (s : Ticker)
    (hpos : st.pos s = st0.pos s)
    (hpx : (ectxC s).price = price s)
    (hadj : ∀ b : Bool,
      (adjust_quantity (some (rules s)) |(target s).getD 0 - st0.pos s| (price s) b).1
        = |(target s).getD 0 - st0.pos s| ∨
      (adjust_quantity (some (rules s)) |(target s).getD 0 - st0.pos s| (price s) b).1 = 0) :
    (fallbackCloseStep rules lev target ectxC st s).pos s = st0.pos s ∨
    ((target s).getD 0 = 0 ∧ (fallbackCloseStep rules lev target ectxC st s).pos s = 0) := by
  unfold fallbackCloseStep
  by_cases hc : st.pos s ≠ 0 ∧ (target s).getD 0 = 0
  · rw [if_pos hc]
    dsimp only
    by_cases hok : (execute_trade (rules s) lev (target s) st.pos (ectxC s) s
        (if st.pos s < 0 then Side.buy else Side.sell) |st.pos s| true).ok = true
    · rw [if_pos hok]
      right
      refine ⟨hc.2, ?_⟩
      simp only [applyFill_self]
      have habs : |st.pos s| = |(target s).getD 0 - st0.pos s| := by
        rw [hpos, hc.2, zero_sub, abs_neg]
      obtain ⟨hfill1, hfill2⟩ := execute_trade_ok_fill (rules s) lev (target s) st.pos
        (ectxC s) s (if st.pos s < 0 then Side.buy else Side.sell) |st.pos s| true hok
      have hadj' : (adjust_quantity (some (rules s)) |st.pos s| ((ectxC s).price)
            (exec_reverse_open (target s) st.pos s
              (if st.pos s < 0 then Side.buy else Side.sell) || true)).1 = |st.pos s| ∨
          (adjust_quantity (some (rules s)) |st.pos s| ((ectxC s).price)
            (exec_reverse_open (target s) st.pos s
              (if st.pos s < 0 then Side.buy else Side.sell) || true)).1 = 0 := by
        rw [Bool.or_true, hpx, habs]
        exact hadj true
      rcases hadj' with hA | hA
      · rw [hA] at hfill1
        rcases market_fill_reduce _ _ _ _ _ hfill1 with ⟨_, hcur, hf⟩ | ⟨_, hcur, hf⟩
        · rw [hf, abs_of_neg hcur, min_self]
          ring
        · rw [hf, abs_of_pos hcur, min_self]
          ring
      · rw [hA] at hfill2
        exact absurd rfl hfill2
    · rw [if_neg hok]
      left
      exact hpos
  · rw [if_neg hc]
    left
    exact hpos

theorem fallback_is_close_false (tgt? : Option ℚ) (h : fallback_is_close tgt? = false) :
    tgt?.getD 0 ≠ 0 := by
  unfold fallback_is_close at h
  rcases tgt? with _ | v <;> simp_all

theorem fallback_is_close_true (tgt? : Option ℚ) (h : fallback_is_close tgt? = true) :
    tgt?.getD 0 = 0 := by
  unfold fallback_is_close at h
  rcases tgt? with _ | v <;> simp_all

theorem fallbackStep_own (rules : Ticker → TradingRules) (lev : ℚ)
    (target : Ticker → Option ℚ) (valid : Ticker → Bool) (price : Ticker → ℚ)
    (ectx : Ticker → ExecCtx) (st0 st : FbState) (s : Ticker)
    (hpos : st.pos s = st0.pos s ∨ ((target s).getD 0 = 0 ∧ st.pos s = 0))
    (hpx : (ectx s).price = price s)
    (hadj : ∀ b : Bool,
      (adjust_quantity (some (rules s)) |(target s).getD 0 - st0.pos s| (price s) b).1
        = |(target s).getD 0 - st0.pos s| ∨
      (adjust_quantity (some (rules s)) |(target s).getD 0 - st0.pos s| (price s) b).1 = 0) :
    (fallbackStep rules lev target valid price ectx
      (fun t => (target t).getD 0 - st0.pos t) st s).pos s = (target s).getD 0 ∨
    ((fallbackStep rules lev target valid price ectx
      (fun t => (target t).getD 0 - st0.pos t) st s).errors s).isSome := by
  unfold fallbackStep
  dsimp only
  by_cases h1 : (target s).getD 0 - st0.pos s = 0
  · rw [if_pos h1]
    left
    rcases hpos with hp | ⟨ht, hp⟩
    · rw [hp]
      linarith [h1]
    · rw [hp, ht]
  · rw [if_neg h1]
    by_cases h2 : valid s = false
    · rw [if_pos h2]
      right
      simp only []
      exact writeReason_self_isSome st.errors s _ rfl
    · rw [if_neg h2]
      by_cases h3 : price s = 0
      · rw [if_pos h3]
        right
        simp only []
        exact writeReason_self_isSome st.errors s _ rfl
      · rw [if_neg h3]
        by_cases h4 : (adjust_quantity (some (rules s))
            |(target s).getD 0 - st0.pos s| (price s) (fallback_is_close (target s))).1 = 0
        · rw [if_pos h4]
          right
          simp only []
          exact writeReason_self_isSome st.errors s _ rfl
        · rw [if_neg h4]
          by_cases h5 : st.avail < (adjust_quantity (some (rules s))
              |(target s).getD 0 - st0.pos s| (price s) (fallback_is_close (target s))).1
                * price s / lev
          · rw [if_pos h5]
            right
            simp only []
            exact writeReason_self_isSome st.errors s _ rfl
          · rw [if_neg h5]
            by_cases hok : (execute_trade (rules s) lev (target s) st.pos (ectx s) s
                (if (target s).getD 0 - st0.pos s > 0 then Side.buy else Side.sell)
                ((adjust_quantity (some (rules s)) |(target s).getD 0 - st0.pos s|
                  (price s) (fallback_is_close (target s))).1)
                (fallback_is_close (target s))).ok = true
            · rw [if_pos hok]
              left
              simp only [applyFill_self]
              have hadjv : (adjust_quantity (some (rules s))
                  |(target s).getD 0 - st0.pos s| (price s)
                  (fallback_is_close (target s))).1 = |(target s).getD 0 - st0.pos s| :=
                (hadj (fallback_is_close (target s))).resolve_right h4
              obtain ⟨hfill1, hfill2⟩ := execute_trade_ok_fill (rules s) lev (target s)
                st.pos (ectx s) s
                (if (target s).getD 0 - st0.pos s > 0 then Side.buy else Side.sell)
                ((adjust_quantity (some (rules s)) |(target s).getD 0 - st0.pos s|
                  (price s) (fallback_is_close (target s))).1)
                (fallback_is_close (target s)) hok
              rw [hadjv, hpx] at hfill1 hfill2
              rw [hadjv]
              have hadj2 : (adjust_quantity (some (rules s))
                  |(target s).getD 0 - st0.pos s| (price s)
                  (exec_reverse_open (target s) st.pos s
                    (if (target s).getD 0 - st0.pos s > 0 then Side.buy else Side.sell) ||
                      fallback_is_close (target s))).1
                  = |(target s).getD 0 - st0.pos s| :=
                (hadj _).resolve_right hfill2
              rw [hadj2] at hfill1
              cases hic : fallback_is_close (target s) with
              | false =>
                simp only [hic] at hfill1 ⊢
                have htne := fallback_is_close_false (target s) hic
                have hp : st.pos s = st0.pos s := by
                  rcases hpos with hp | ⟨ht, _⟩
                  · exact hp
                  · exact absurd ht htne
                by_cases hrem : (target s).getD 0 - st0.pos s > 0
                · simp only [if_pos hrem] at hfill1 ⊢
                  have hf := market_fill_not_reduce _ _ _ _ _ hfill1
                  simp only [] at hf
                  rw [hf, hp, abs_of_pos hrem]
                  ring
                · simp only [if_neg hrem] at hfill1 ⊢
                  have hrem' : (target s).getD 0 - st0.pos s < 0 :=
                    lt_of_le_of_ne (not_lt.mp hrem) h1
                  have hf := market_fill_not_reduce _ _ _ _ _ hfill1
                  simp only [] at hf
                  rw [hf, hp, abs_of_neg hrem']
                  ring
              | true =>
                simp only [hic] at hfill1 ⊢
                have ht0 := fallback_is_close_true (target s) hic
                rcases market_fill_reduce _ _ _ _ _ hfill1 with ⟨_, hcur, hf⟩ | ⟨_, hcur, hf⟩
                · rcases hpos with hp | ⟨_, hp⟩
                  · have hcur' : st0.pos s < 0 := hp ▸ hcur
                    rw [hf, ht0, hp, zero_sub, abs_neg, abs_of_neg hcur', min_self]
                    ring
                  · rw [hp] at hcur
                    exact absurd hcur (lt_irrefl 0)
                · rcases hpos with hp | ⟨_, hp⟩
                  · have hcur' : 0 < st0.pos s := hp ▸ hcur
                    rw [hf, ht0, hp, zero_sub, abs_neg, abs_of_pos hcur', min_self]
                    ring
                  · rw [hp] at hcur
                    exact absurd hcur (lt_irrefl 0)
            · rw [if_neg hok]
              right
              simp only []
              refine writeReason_self_isSome st.errors s _ ?_
              exact execute_trade_fail_reason (rules s) lev (target s) st.pos (ectx s) s
                (if (target s).getD 0 - st0.pos s > 0 then Side.buy else Side.sell)
                ((adjust_quantity (some (rules s)) |(target s).getD 0 - st0.pos s|
                  (price s) (fallback_is_close (target s))).1)
                (fallback_is_close (target s)) (Bool.eq_false_iff.mpr hok)

/-- **C1**: after the market-order fallback phase, every symbol of the
residual universe either holds exactly its target position or has a
recorded error reason — no symbol with a residual delta is silently
dropped.  Hypotheses formalize "the target is reachable within the run
budget": prices used for submission match the quoted prices, and each
residual delta is either exactly representable under the symbol's
quantization rules or normalizes to zero (in which case an error is
recorded). -/
theorem C1_fallback_convergence
    (rules : Ticker → TradingRules) (lev : ℚ) (target : Ticker → Option ℚ)
    (valid : Ticker → Bool) (price : Ticker → ℚ) (ectxC ectx : Ticker → ExecCtx)
    (is_first_day : Bool) (freshAvail : ℚ) (tickers : List Ticker) (st0 : FbState)
    (hnd : tickers.Nodup)
    (hpx : ∀ s ∈ tickers, (ectx s).price = price s ∧ (ectxC s).price = price s)
    (hadj : ∀ s ∈ tickers, ∀ b : Bool,
      (adjust_quantity (some (rules s)) |(target s).getD 0 - st0.pos s| (price s) b).1
        = |(target s).getD 0 - st0.pos s| ∨
      (adjust_quantity (some (rules s)) |(target s).getD 0 - st0.pos s| (price s) b).1 = 0) :
    ∀ s ∈ tickers,
      (fallbackPhase rules lev target valid price ectxC ectx is_first_day freshAvail
        tickers st0).pos s = (target s).getD 0 ∨
      ((fallbackPhase rules lev target valid price ectxC ectx is_first_day freshAvail
        tickers st0).errors s).isSome := by
  intro s hs
  unfold fallbackPhase
  dsimp only
  by_cases hall : tickers.all (fun t => decide ((target t).getD 0 - st0.pos t = 0)) = true
  · rw [if_pos hall]
    left
    have h0 : (target s).getD 0 - st0.pos s = 0 :=
      of_decide_eq_true (List.all_eq_true.mp hall s hs)
    linarith
  · rw [if_neg hall]
    obtain ⟨l1, l2, hsplit⟩ := List.append_of_mem hs
    subst hsplit
    have hnds := List.nodup_append.mp hnd
    have hs1 : s ∉ l1 := fun hmem => hnds.2.2 hmem (List.mem_cons_self s l2)
    have hs2 : s ∉ l2 := (List.nodup_cons.mp hnds.2.1).1
    have hcframe : ∀ st t u, t ≠ u →
        ((fallbackCloseStep rules lev target ectxC) st t).pos u = st.pos u ∧
        ((fallbackCloseStep rules lev target ectxC) st t).errors u = st.errors u :=
      fun st t u h => fallbackCloseStep_frame rules lev target ectxC st t u h
    have hfframe : ∀ st t u, t ≠ u →
        ((fallbackStep rules lev target valid price ectx
          (fun t => (target t).getD 0 - st0.pos t)) st t).pos u = st.pos u ∧
        ((fallbackStep rules lev target valid price ectx
          (fun t => (target t).getD 0 - st0.pos t)) st t).errors u = st.errors u :=
      fun st t u h => fallbackStep_frame rules lev target valid price ectx _ st t u h
    have hclose : (if is_first_day = true then st0
        else (l1 ++ s :: l2).foldl (fallbackCloseStep rules lev target ectxC) st0).pos s
          = st0.pos s ∨
        ((target s).getD 0 = 0 ∧
          (if is_first_day = true then st0
            else (l1 ++ s :: l2).foldl (fallbackCloseStep rules lev target ectxC) st0).pos s
            = 0) := by
      cases is_first_day with
      | true => left; rw [if_pos rfl]
      | false =>
        rw [if_neg (Bool.false_ne_true)]
        rw [List.foldl_append, List.foldl_cons]
        have hframe1 := foldl_frame hcframe l1 st0 s hs1
        have hown := fallbackCloseStep_own rules lev target ectxC price st0
          (l1.foldl (fallbackCloseStep rules lev target ectxC) st0) s
          hframe1.1 (hpx s hs).2 (hadj s hs)
        have hframe2 := foldl_frame hcframe l2
          (fallbackCloseStep rules lev target ectxC
            (l1.foldl (fallbackCloseStep rules lev target ectxC) st0) s) s hs2
        rw [hframe2.1]
        exact hown
    generalize hq : (if is_first_day = true then st0
        else (l1 ++ s :: l2).foldl (fallbackCloseStep rules lev target ectxC) st0) = stC at hclose ⊢
    rw [List.foldl_append, List.foldl_cons]
    have hframe1 := foldl_frame hfframe l1
      { stC with avail := freshAvail } s hs1
    have hposMid : (l1.foldl (fallbackStep rules lev target valid price ectx
          (fun t => (target t).getD 0 - st0.pos t)) { stC with avail := freshAvail }).pos s
        = st0.pos s ∨
        ((target s).getD 0 = 0 ∧
          (l1.foldl (fallbackStep rules lev target valid price ectx
            (fun t => (target t).getD 0 - st0.pos t)) { stC with avail := freshAvail }).pos s
          = 0) := by
      rw [hframe1.1]
      exact hclose
    have hown := fallbackStep_own rules lev target valid price ectx st0
      (l1.foldl (fallbackStep rules lev target valid price ectx
        (fun t => (target t).getD 0 - st0.pos t)) { stC with avail := freshAvail }) s
      hposMid (hpx s hs).1 (hadj s hs)
    have hframe2 := foldl_frame hfframe l2
      (fallbackStep rules lev target valid price ectx
        (fun t => (target t).getD 0 - st0.pos t)
        (l1.foldl (fallbackStep rules lev target valid price ectx
          (fun t => (target t).getD 0 - st0.pos t)) { stC with avail := freshAvail }) s) s hs2
    rcases hown with h | h
    · left
      rw [hframe2.1]
      exact h
    · right
      rw [hframe2.2]
      exact h

/-- Integer-step instrument rules used by concrete scenarios:
`stepSize 1`, precision 0, `minQty 1`, `maxQty 1000000`, `minNotional 5`. -/
def rulesInt : TradingRules :=
  { step_size := 1, quantity_precision := 0, min_qty := 1,
    max_qty := 1000000, min_notional := 5 }

/-- **C1 witness** (Scenario E): residual `XRPUSDT: -100` at price 2,
leverage 10, ample balance: the fallback ends with the position equal to
the target (or a recorded error), never a silent no-op. -/
theorem C1_fallback_convergence_witness :
    (fallbackPhase (fun _ => rulesInt) 10 (fun _ => some (-100)) (fun _ => true)
      (fun _ => 2) (fun _ => ⟨true, true, 2, some 1000, true⟩)
      (fun _ => ⟨true, true, 2, some 1000, true⟩) false 1000 ["XRPUSDT"]
      ⟨fun _ => 0, fun _ => none, 500, fun _ => none⟩).pos "XRPUSDT" =
        ((some (-100) : Option ℚ)).getD 0 ∨
    ((fallbackPhase (fun _ => rulesInt) 10 (fun _ => some (-100)) (fun _ => true)
      (fun _ => 2) (fun _ => ⟨true, true, 2, some 1000, true⟩)
      (fun _ => ⟨true, true, 2, some 1000, true⟩) false 1000 ["XRPUSDT"]
      ⟨fun _ => 0, fun _ => none, 500, fun _ => none⟩).errors "XRPUSDT").isSome := by
  refine C1_fallback_convergence (fun _ => rulesInt) 10 (fun _ => some (-100))
    (fun _ => true) (fun _ => 2) (fun _ => ⟨true, true, 2, some 1000, true⟩)
    (fun _ => ⟨true, true, 2, some 1000, true⟩) false 1000 ["XRPUSDT"]
    ⟨fun _ => 0, fun _ => none, 500, fun _ => none⟩ (by simp) ?_ ?_ "XRPUSDT" (by simp)
  · intro t ht
    exact ⟨rfl, rfl⟩
  · intro t ht b
    left
    simp only [List.mem_singleton] at ht
    subst ht
    cases b <;> decide

/- ### C9: run / adjust_or_open_positions error containment -/

/-- `get_stable_positions` never raises: on any internal failure it logs and
returns the empty map (all-zero positions). -/
def get_stable_positions (fetchOk : Bool) (pos : Ticker → ℚ) : Ticker → ℚ :=
  if fetchOk then pos else fun _ => 0

/-- Environment for `run`/`adjust_or_open_positions`: which of the fallible
steps succeed, and the effect of the main loop body on the error map. -/
structure RunEnv where
  /-- `get_account_info`: `none` means the call raises. -/
  account? : Option ℚ
  /-- Whether the positions fetch inside `get_stable_positions` succeeds
  (it never raises either way). -/
  posOk : Bool
  /-- The positions when the fetch succeeds. -/
  pos : Ticker → ℚ
  /-- `get_exchange_info` (re-raises on failure): `none` means it raises. -/
  exch? : Option (List Ticker)
  /-- Whether the candidate processing, round loop, fallback and post-trade
  metrics complete without raising. -/
  bodyOk : Bool
  /-- Error-map effect of the completed main body. -/
  body : (Ticker → Option Reason) → Ticker → Option Reason
  /-- Error-map writes made before the point where the body raises. -/
  bodyErr : (Ticker → Option Reason) → Ticker → Option Reason
  /-- Whether `run`'s own post-adjust steps complete without raising. -/
  postOk : Bool

/-- The `try` block of `adjust_or_open_positions` in the `Except` monad:
an `Except.error` carries the error map accumulated up to the raise.
Order of the setup reads follows the source: `get_account_info`, then
`get_stable_positions` (total), then `get_exchange_info`. -/
def adjustBodyE (env : RunEnv) (errs0 : Ticker → Option Reason) :
    Except (Ticker → Option Reason) ((Ticker → Option Reason) × Bool) :=
  match env.account? with
  | none => .error errs0
  | some _bal =>
    let _cur := get_stable_positions env.posOk env.pos
    match env.exch? with
    | none => .error errs0
    | some _syms =>
      if env.bodyOk then .ok (env.body errs0, true) else .error (env.bodyErr errs0)

/-- `adjust_or_open_positions`: the catch-all writes the `"global"` entry
and keeps whatever was accumulated; the Bool records whether the main body
ran to completion. -/
def adjust_or_open_positions (env : RunEnv) (errs0 : Ticker → Option Reason) :
    (Ticker → Option Reason) × Bool :=
  match adjustBodyE env errs0 with
  | .ok r => r
  | .error e => (writeReason e "global" (some Reason.globalFailure), false)

/-- The `try` block of `run` in the `Except` monad: `run` resets
`error_reasons` to the empty map, calls `adjust_or_open_positions` (which
never raises), then runs its post-adjust steps. -/
def runBodyE (env : RunEnv) : Except (Ticker → Option Reason) (Ticker → Option Reason) :=
  let e1 := (adjust_or_open_positions env (fun _ => none)).1
  if env.postOk then .ok e1 else .error e1

/-- `run`: the catch-all records `"system_error"`; the `finally` helpers all
swallow their own exceptions, so `run` always returns the error map. -/
def run (env : RunEnv) : Ticker → Option Reason :=
  match runBodyE env with
  | .ok e => e
  | .error e => writeReason e "system_error" (some Reason.execException)

/-- **C9 counterexample**: the claim that ONLY a failure to read account
balance/positions aborts the loop is false. Here the account read succeeds
(`account? = some 1000`) and the positions read cannot abort at all, yet a
`get_exchange_info` failure aborts the run before any round, with the
`"global"` entry recorded. -/
theorem C9_setup_abort_cex :
    (⟨some 1000, false, fun _ => 0, none, true, fun e => e, fun e => e, true⟩ :
        RunEnv).account? = some 1000 ∧
    (adjust_or_open_positions
        ⟨some 1000, false, fun _ => 0, none, true, fun e => e, fun e => e, true⟩
        (fun _ => none)).2 = false ∧
    (adjust_or_open_positions
        ⟨some 1000, false, fun _ => 0, none, true, fun e => e, fun e => e, true⟩
        (fun _ => none)).1 "global" = some Reason.globalFailure := by
  refine ⟨rfl, rfl, rfl⟩

/-- **C9 (amended)**: `run` always returns the error map — when its
post-adjust steps succeed it returns `adjust_or_open_positions`' map, and
when they raise it returns that map extended with a `"system_error"` entry.
A failed account read aborts the loop with a `"global"` entry keeping the
errors accumulated so far; so does a failed exchange-info read even when
the account read succeeded; and when both fallible setup reads succeed the
loop runs regardless of whether the positions fetch succeeded, because
`get_stable_positions` never raises. -/
theorem C9_run_amended (env : RunEnv) :
    (env.postOk = true →
      run env = (adjust_or_open_positions env (fun _ => none)).1) ∧
    (env.postOk = false →
      run env = writeReason (adjust_or_open_positions env (fun _ => none)).1
        "system_error" (some Reason.execException)) ∧
    (env.account? = none → ∀ errs0,
      adjust_or_open_positions env errs0 =
        (writeReason errs0 "global" (some Reason.globalFailure), false)) ∧
    (∀ b, env.account? = some b → env.exch? = none → ∀ errs0,
      adjust_or_open_positions env errs0 =
        (writeReason errs0 "global" (some Reason.globalFailure), false)) ∧
    (∀ b syms, env.account? = some b → env.exch? = some syms →
      env.bodyOk = true → ∀ errs0,
      adjust_or_open_positions env errs0 = (env.body errs0, true)) := by
  refine ⟨?_, ?_, ?_, ?_, ?_⟩
  · intro hp
    unfold run runBodyE
    rw [hp]
    rfl
  · intro hp
    unfold run runBodyE
    rw [hp]
    rfl
  · intro ha errs0
    unfold adjust_or_open_positions adjustBodyE
    rw [ha]
  · intro b ha he errs0
    unfold adjust_or_open_positions adjustBodyE
    rw [ha, he]
  · intro b syms ha he hb errs0
    unfold adjust_or_open_positions adjustBodyE
    rw [ha, he, hb]
    rfl

/-- **C9 witness**: a fully healthy environment — `run` returns exactly the
loop body's error map, and the loop ran to completion. -/
theorem C9_run_amended_witness :
    run ⟨some 1000, true, fun _ => 0, some [], true, fun e => e, fun e => e, true⟩ =
      (fun _ => (none : Option Reason)) ∧
    (adjust_or_open_positions
        ⟨some 1000, true, fun _ => 0, some [], true, fun e => e, fun e => e, true⟩
        (fun _ => none)).2 = true := by
  constructor
  · have h := (C9_run_amended
      ⟨some 1000, true, fun _ => 0, some [], true, fun e => e, fun e => e, true⟩).1 rfl
    rw [h]
    rfl
  · have h := (C9_run_amended
      ⟨some 1000, true, fun _ => 0, some [], true, fun e => e, fun e => e, true⟩).2.2.2.2
      1000 [] rfl rfl rfl (fun _ => none)
    rw [h]
